import Mathlib

/-!
Verification development for the `deno-kysely-msodbc` driver layer.

The embedding below models the per-statement execution engine of
`src/unnamed/part_000` (class `OdbcRequest`: `execute`, `stream`,
`#cleanup`, `#bindParams`, `#bindCols`, `#getParamBinding`,
`#getColBinding`, `#readRow`, `#fetchRow`), the connection layer of
`src/connection.ts` (`executeQuery`, `streamQuery`, `destroy`) and the
diagnostics walk `getOdbcError` of `src/unnamed/part_003`.

Native driver behaviour (the responses of the ODBC library to
`SQLExecDirectW`, `SQLDescribeCol`, `SQLFetch`, `SQLGetDiagRecW`, ...) is
an input of the model: a `StmtOracle` fixes one driver behaviour for one
statement and the executor is a pure function of the oracle.  Runs record
a trace of native calls so that resource claims (handle freed exactly
once, no native call issued before validation) are statements about the
trace.
-/

namespace MsOdbc

/-! ## Protocol constants

Values from `src/unnamed/part_003` (`SQLRETURN`, `SQL_NTS`) and
`src/unnamed/part_000` (`MAX_BIND_SIZE`). -/

def SQL_SUCCESS : Int := 0

def SQL_SUCCESS_WITH_INFO : Int := 1

def SQL_ERROR : Int := -1

def SQL_INVALID_HANDLE : Int := -2

def SQL_NO_DATA : Int := 100

def SQL_NTS : Int := -3

def MAX_BIND_SIZE : Int := 65536

/-- Modelled from the spec: the "null data" length-indicator sentinel.
`SQL_NULL_DATA` is imported by `src/unnamed/part_000` from its `ffi.ts`,
whose defining line is not under `src/`; the standard ODBC value is -1.
Only its distinctness from genuine byte lengths matters to the engine. -/
def SQL_NULL_DATA : Int := -1

/-- Modelled from the spec: member of the `ValueType` enum imported by
`src/unnamed/part_000` from its `ffi.ts` (not under `src/`); standard
ODBC C-type code for 4-byte signed integers. -/
def SQL_C_SLONG : Int := 4

/-- Modelled from the spec: `ValueType.SQL_C_SBIGINT`, the standard ODBC
C-type code for 8-byte signed integers. -/
def SQL_C_SBIGINT : Int := -25

/-- Modelled from the spec: `ValueType.SQL_C_DOUBLE` (also in
`src/unnamed/part_003`). -/
def SQL_C_DOUBLE : Int := 8

/-- Modelled from the spec: `ValueType.SQL_C_BIT`, standard ODBC code. -/
def SQL_C_BIT : Int := -7

/-- Modelled from the spec: `ValueType.SQL_C_WCHAR` (also in
`src/unnamed/part_003`). -/
def SQL_C_WCHAR : Int := -8

/-- Modelled from the spec: `ParameterType.SQL_INTEGER` (also in
`src/unnamed/part_003`). -/
def SQL_INTEGER : Int := 4

/-- Modelled from the spec: `ParameterType.SQL_BIGINT`, standard code. -/
def SQL_BIGINT : Int := -5

/-- Modelled from the spec: `ParameterType.SQL_FLOAT`, standard code. -/
def SQL_FLOAT : Int := 6

/-- Modelled from the spec: `ParameterType.SQL_BIT`, standard code. -/
def SQL_BIT : Int := -7

/-- Modelled from the spec: `ParameterType.SQL_CHAR`, standard code. -/
def SQL_CHAR : Int := 1

/-- Modelled from the spec: `ParameterType.SQL_VARCHAR`, standard code. -/
def SQL_VARCHAR : Int := 12

/-- Modelled from the spec: `ParameterType.SQL_LONGVARCHAR`. -/
def SQL_LONGVARCHAR : Int := -1

/-- Modelled from the spec: `ParameterType.SQL_WCHAR`. -/
def SQL_WCHAR : Int := -8

/-- Modelled from the spec: `ParameterType.SQL_WVARCHAR` (also in
`src/unnamed/part_003`). -/
def SQL_WVARCHAR : Int := -9

/-- Modelled from the spec: `ParameterType.SQL_WLONGVARCHAR`. -/
def SQL_WLONGVARCHAR : Int := -10

/-- Modelled from the spec: `ParameterType.SQL_TYPE_TIMESTAMP`. -/
def SQL_TYPE_TIMESTAMP : Int := 93

/-- Modelled from the spec: `ParameterType.SQL_TYPE_DATE`. -/
def SQL_TYPE_DATE : Int := 91

/-! ## Dynamic values

The JavaScript values reaching `OdbcRequest.#getParamBinding`.  A JS
number with no fractional part (`val % 1 === 0`) is `jsIntNumber`; a JS
number with a fractional part (including `NaN` and the infinities, which
fail the `% 1 === 0` test) is `jsFracNumber` with its payload abstracted,
since IEEE floating-point payloads are outside the scope of this model.
Strings are sequences of UTF-16 code units. -/

inductive JSValue where
  | jsNull
  | jsUndefined
  | jsIntNumber (v : Int)
  | jsFracNumber
  | jsBigInt (v : Int)
  | jsBool (b : Bool)
  | jsString (units : List Nat)
  | jsOther
deriving DecidableEq, Repr

/-- Contents of a parameter buffer handed to `SQLBindParameter`: which
typed array the source allocates and what it holds.  The payload of a
`Float64Array` is abstracted (IEEE encoding out of scope). -/
inductive ParamBuf where
  | empty
  | int32 (v : Int)
  | int64 (v : Int)
  | float64abs
  | byte (v : Nat)
  | utf16 (units : List Nat)
deriving DecidableEq, Repr

/-- `ParamBinding` of `src/unnamed/part_000` lines 35-47. -/
structure ParamBinding where
  cType : Int
  sqlType : Int
  buf : ParamBuf
  columnSize : Int
  decimalDigits : Int
  bufLen : Int
  lenInd : Int
deriving DecidableEq, Repr

/-- Errors thrown by the statement engine, tagged by throw site. -/
inductive OdbcErr where
  | unsupportedParam
  | bindParamFail (i : Nat)
  | execError (diag : String)
  | bindColFail (descName : String) (dataType : Int) (columnSize : Int)
  | unsupportedColType (dataType : Int)
  | bindColCallFail (i : Nat)
  | fetchError (diag : String)
  | fetchUnexpected (status : Int)
  | decodeUnknownCType (cType : Int)
deriving DecidableEq, Repr

instance {ε α : Type} [DecidableEq ε] [DecidableEq α] : DecidableEq (Except ε α) :=
  fun x y =>
    match x, y with
    | Except.error a, Except.error b =>
        if h : a = b then isTrue (by rw [h])
        else isFalse (by intro hc; cases hc; exact h rfl)
    | Except.ok a, Except.ok b =>
        if h : a = b then isTrue (by rw [h])
        else isFalse (by intro hc; cases hc; exact h rfl)
    | Except.error _, Except.ok _ => isFalse (by intro hc; cases hc)
    | Except.ok _, Except.error _ => isFalse (by intro hc; cases hc)

/-- Modelled from the spec: `strToBuf` is imported by
`src/unnamed/part_000` from its `ffi.ts` (not under `src/`); per spec
section 4.1 the buffer holds the UTF-16 encoding of the string plus a
terminating zero unit. -/
def strToBuf (units : List Nat) : List Nat := units ++ [0]

/-- `OdbcRequest.#getParamBinding` (`src/unnamed/part_000` lines
212-300): maps one JS value to its ODBC parameter descriptor.  The
number/bigint branch is shared between `jsIntNumber` and `jsBigInt`
exactly as `typeof val === "bigint" || (typeof val === "number" && val %
1 === 0)` shares it in the source. -/
def intParamBinding (v : Int) : ParamBinding :=
  if -2147483648 ≤ v ∧ v ≤ 2147483647 then
    ⟨SQL_C_SLONG, SQL_INTEGER, ParamBuf.int32 v, 0, 0, 4, 4⟩
  else
    ⟨SQL_C_SBIGINT, SQL_BIGINT, ParamBuf.int64 v, 0, 0, 8, 8⟩

def getParamBinding : JSValue → Except OdbcErr ParamBinding
  | JSValue.jsNull => Except.ok ⟨1, 1, ParamBuf.empty, 0, 0, 0, SQL_NULL_DATA⟩
  | JSValue.jsUndefined => Except.ok ⟨1, 1, ParamBuf.empty, 0, 0, 0, SQL_NULL_DATA⟩
  | JSValue.jsIntNumber v => Except.ok (intParamBinding v)
  | JSValue.jsBigInt v => Except.ok (intParamBinding v)
  | JSValue.jsFracNumber =>
      Except.ok ⟨SQL_C_DOUBLE, SQL_FLOAT, ParamBuf.float64abs, 0, 0, 8, 8⟩
  | JSValue.jsBool b =>
      Except.ok ⟨SQL_C_BIT, SQL_BIT, ParamBuf.byte (if b then 1 else 0), 0, 0, 1, 1⟩
  | JSValue.jsString units =>
      Except.ok ⟨SQL_C_WCHAR, SQL_WVARCHAR, ParamBuf.utf16 (strToBuf units),
        Int.ofNat units.length, 0, Int.ofNat ((units.length + 1) * 2), SQL_NTS⟩
  | JSValue.jsOther => Except.error OdbcErr.unsupportedParam

/-! ## Column bindings and row decoding -/

/-- Contents of one bound output column buffer, tagged by the typed
array the source allocates for it. -/
inductive ColBuf where
  | i32 (v : Int)
  | i64 (v : Int)
  | f64 (bits : Int)
  | bit (v : Nat)
  | wchar (units : List Nat)
deriving DecidableEq, Repr

/-- `ColBinding` of `src/unnamed/part_000` lines 23-33, with the current
buffer contents inlined (the driver rewrites the same memory per row). -/
structure ColBinding where
  cType : Int
  buf : ColBuf
  bufLen : Int
  lenInd : Int
deriving DecidableEq, Repr

/-- `OdbcRequest.#getColBinding` (`src/unnamed/part_000` lines 302-374):
maps a described column's native data type and declared size to a
zero-initialised output buffer binding. -/
def getColBinding (dataType : Int) (columnSize : Int) : Except OdbcErr ColBinding :=
  if dataType = SQL_INTEGER then
    Except.ok ⟨SQL_C_SLONG, ColBuf.i32 0, 4, 0⟩
  else if dataType = SQL_BIGINT then
    Except.ok ⟨SQL_C_SBIGINT, ColBuf.i64 0, 8, 0⟩
  else if dataType = SQL_FLOAT then
    Except.ok ⟨SQL_C_DOUBLE, ColBuf.f64 0, 8, 0⟩
  else if dataType = SQL_BIT then
    Except.ok ⟨SQL_C_BIT, ColBuf.bit 0, 1, 0⟩
  else if dataType = SQL_CHAR ∨ dataType = SQL_VARCHAR ∨ dataType = SQL_LONGVARCHAR ∨
      dataType = SQL_WCHAR ∨ dataType = SQL_WVARCHAR ∨ dataType = SQL_WLONGVARCHAR then
    let len : Nat := columnSize.toNat + 1
    Except.ok ⟨SQL_C_WCHAR, ColBuf.wchar (List.replicate len 0), Int.ofNat (len * 2), 0⟩
  else if dataType = SQL_TYPE_TIMESTAMP ∨ dataType = SQL_TYPE_DATE then
    let len : Nat := 30
    Except.ok ⟨SQL_C_WCHAR, ColBuf.wchar (List.replicate len 0), Int.ofNat (len * 2), 0⟩
  else
    Except.error (OdbcErr.unsupportedColType dataType)

/-- Decoded field values (`number`, `bigint`, `boolean`, `string`, `null`
in the source; float payloads abstracted as bit patterns). -/
inductive SqlValue where
  | null
  | num (v : Int)
  | bignum (v : Int)
  | floatBits (v : Int)
  | bool (b : Bool)
  | text (units : List Nat)
deriving DecidableEq, Repr

/-- Reading `buf[0]` of a typed array under JS semantics: an
`Int32Array` yields a number, a `BigInt64Array` a bigint, etc. -/
def bufFirst : ColBuf → SqlValue
  | ColBuf.i32 v => SqlValue.num v
  | ColBuf.i64 v => SqlValue.bignum v
  | ColBuf.f64 b => SqlValue.floatBits b
  | ColBuf.bit v => SqlValue.num (Int.ofNat v)
  | ColBuf.wchar us => SqlValue.num (Int.ofNat (us.headD 0))

/-- The `buf[0] === 1` test of the bit branch. -/
def bufFirstIsOne : ColBuf → Bool
  | ColBuf.i32 v => v = 1
  | ColBuf.i64 v => v = 1
  | ColBuf.f64 b => b = 1
  | ColBuf.bit v => v = 1
  | ColBuf.wchar us => us.headD 0 = 1

/-- The `buf as Uint16Array` view used by the wide-character branch.  For
buffers that are not `Uint16Array` the reinterpretation is abstracted as
the empty unit sequence; `#getColBinding` only ever pairs `SQL_C_WCHAR`
with a `Uint16Array`, so the case is unreachable from the binder. -/
def asUnits : ColBuf → List Nat
  | ColBuf.wchar us => us
  | _ => []

/-- Modelled from the spec: `bufToStr` is imported by
`src/unnamed/part_000` from its `ffi.ts` (not under `src/`); per spec
section 4.6 it decodes exactly the requested number of UTF-16 units from
the front of the buffer. -/
def bufToStr (units : List Nat) (count : Nat) : List Nat := units.take count

/-- One field of `OdbcRequest.#readRow` (`src/unnamed/part_000` lines
379-407): the indicator is consulted first; the sentinel decodes to
null before the C-type switch runs.  The error value is the unknown
C-type of the default branch. -/
def readCell (b : ColBinding) : Except Int SqlValue :=
  let byteLen := b.lenInd
  if byteLen = SQL_NULL_DATA then Except.ok SqlValue.null
  else if b.cType = SQL_C_SLONG ∨ b.cType = SQL_C_SBIGINT ∨ b.cType = SQL_C_DOUBLE then
    Except.ok (bufFirst b.buf)
  else if b.cType = SQL_C_BIT then Except.ok (SqlValue.bool (bufFirstIsOne b.buf))
  else if b.cType = SQL_C_WCHAR then
    Except.ok (SqlValue.text (bufToStr (asUnits b.buf) (byteLen.toNat / 2)))
  else Except.error b.cType

/-- A decoded row: field values keyed by column name, in map order. -/
abbrev Row : Type := List (String × SqlValue)

/-- JS `Map.set`: replace the value at an existing key (keeping its
position) or append a fresh entry. -/
def mapSet (m : List (String × α)) (k : String) (v : α) : List (String × α) :=
  match m with
  | [] => [(k, v)]
  | (k0, v0) :: rest => if k0 = k then (k0, v) :: rest else (k0, v0) :: mapSet rest k v

/-- The JS `Map` obtained by `set`-ing a list of entries in order. -/
def jsMapOf (l : List (String × α)) : List (String × α) :=
  l.foldl (fun m kv => mapSet m kv.1 kv.2) []

def readRowAux : List (String × ColBinding) → Except Int Row
  | [] => Except.ok []
  | (n, b) :: rest => do
      let v ← readCell b
      let vs ← readRowAux rest
      Except.ok ((n, v) :: vs)

/-- `OdbcRequest.#readRow` over the column-binding map. -/
def readRow (bound : List (String × ColBinding)) : Except Int Row :=
  readRowAux (jsMapOf bound)

/-! ## The statement oracle

A `StmtOracle` is one complete driver behaviour for one statement
execution: whether each native call succeeds and what it reports.  The
fetch behaviour is a finite list of outcomes; after the list is
exhausted the driver reports `SQL_NO_DATA` (a driver that never reports
an end of data makes the fetch loop spin forever; that regime is the
subject of the diagnostics-walk claim and is modelled there). -/

/-- Result of `describeCol` for one ordinal: name, native data type code
and declared column size. -/
structure ColDesc where
  name : String
  dataType : Int
  columnSize : Int
deriving DecidableEq, Repr

/-- One outcome of a `SQLFetch` call.  A row outcome carries the buffer
contents the driver wrote into the bound column buffers (positionally,
in binding order) together with each column's length/indicator value. -/
inductive FetchStep where
  | row (info : Bool) (writes : List (ColBuf × Int))
  | noData
  | err (diag : String)
  | unexpected (status : Int)
deriving DecidableEq, Repr

structure StmtOracle where
  /-- The statement handle value `allocHandle` returns (nonzero). -/
  handle : Nat
  /-- Whether the native `bindParameter` call at position `i` succeeds.
  Modelled from the spec: the `bindParameter` wrapper is imported by
  `src/unnamed/part_000` from its `ffi.ts` (not under `src/`); per spec
  section 7 a failing native call throws and the error is surfaced after
  cleanup. -/
  bindParamOk : Nat → Bool
  /-- Outcome of `execDirect`: a thrown diagnostic, or the reported
  column count and affected-row count. -/
  execResult : Except String (Nat × Int)
  /-- Result of `describeCol` for each ordinal. -/
  descs : Nat → ColDesc
  /-- Whether the native `bindCol` call at ordinal `i` succeeds.
  Modelled from the spec, like `bindParamOk`. -/
  bindColOk : Nat → Bool
  /-- Successive `SQLFetch` outcomes; `SQL_NO_DATA` thereafter. -/
  fetches : List FetchStep

/-- Native calls issued by one statement execution, in order. -/
inductive Event where
  | allocStmt
  | bindParamCall (i : Nat)
  | execDirectCall
  | describeColCall (i : Nat)
  | bindColCall (i : Nat)
  | fetchCall
  | freeStmt (h : Option Nat)
deriving DecidableEq, Repr

/-- The mutable fields of an `OdbcRequest` that cleanup touches:
`#stmtHandle`, `#paramBindings`, `#colBindings`
(`src/unnamed/part_000` lines 53-56). -/
structure ReqState where
  stmtHandle : Option Nat
  paramBindings : List (Nat × ParamBinding)
  colBindings : List (String × ColBinding)
deriving DecidableEq, Repr

/-- `OdbcRequest.#cleanup` (`src/unnamed/part_000` lines 140-145):
`SQLFreeHandle(SQL_HANDLE_STMT, this.#stmtHandle)` with whatever the
handle field currently holds, then null the field and clear both
binding maps.  The emitted event records the handle value passed to
`SQLFreeHandle`; passing `none` frees no real handle. -/
def cleanup (s : ReqState) : ReqState × Event :=
  (⟨none, [], []⟩, Event.freeStmt s.stmtHandle)

/-- `OdbcRequest.#bindParams` (`src/unnamed/part_000` lines 147-167):
map each parameter value, issue the native bind call, then register the
binding at its 1-based position.  Returns the registered bindings, the
events issued, and the first error if any (bindings registered before
the failing position remain registered). -/
def bindParamsAux (o : StmtOracle) : Nat → List JSValue →
    List (Nat × ParamBinding) × List Event × Option OdbcErr
  | _, [] => ([], [], none)
  | i, v :: rest =>
      match getParamBinding v with
      | Except.error e => ([], [], some e)
      | Except.ok pb =>
          if o.bindParamOk i then
            let r := bindParamsAux o (i + 1) rest
            ((i, pb) :: r.1, Event.bindParamCall i :: r.2.1, r.2.2)
          else
            ([], [Event.bindParamCall i], some (OdbcErr.bindParamFail i))

/-- `OdbcRequest.#bindCols` (`src/unnamed/part_000` lines 169-188):
for each ordinal `i` in `1..colCount`, describe the column, validate the
declared size, build the output binding, issue the native bind call and
register the binding under the column name.  `remaining` counts the
ordinals left; the first argument of the result is the registered
binding list in ordinal order. -/
def bindColsAux (o : StmtOracle) : Nat → Nat →
    List (String × ColBinding) × List Event × Option OdbcErr
  | 0, _ => ([], [], none)
  | n + 1, i =>
      let desc := o.descs i
      if desc.columnSize = 0 ∨ MAX_BIND_SIZE < desc.columnSize then
        ([], [Event.describeColCall i],
          some (OdbcErr.bindColFail desc.name desc.dataType desc.columnSize))
      else
        match getColBinding desc.dataType desc.columnSize with
        | Except.error e => ([], [Event.describeColCall i], some e)
        | Except.ok cb =>
            if o.bindColOk i then
              let r := bindColsAux o n (i + 1)
              ((desc.name, cb) :: r.1,
                Event.describeColCall i :: Event.bindColCall i :: r.2.1, r.2.2)
            else
              ([], [Event.describeColCall i, Event.bindColCall i],
                some (OdbcErr.bindColCallFail i))

/-- The driver writing a fetched row into the bound buffers: the `j`-th
write goes into the `j`-th registered binding. -/
def applyWrites : List (String × ColBinding) → List (ColBuf × Int) →
    List (String × ColBinding)
  | bs, [] => bs
  | [], _ => []
  | (n, b) :: bs, (cb, ind) :: ws =>
      (n, { b with buf := cb, lenInd := ind }) :: applyWrites bs ws

/-- The fetch loop of `OdbcRequest.#fetchRow` (`src/unnamed/part_000`
lines 413-442) as consumed by `execute`: decode a row on every success
status, stop at `SQL_NO_DATA`, throw on `SQL_ERROR` or an unexpected
status.  Returns the decoded rows, the final buffer contents, the
number of fetch calls issued, and the error if any. -/
def fetchLoop : List (String × ColBinding) → List FetchStep →
    List Row × List (String × ColBinding) × Nat × Option OdbcErr
  | bound, [] => ([], bound, 0, none)
  | bound, FetchStep.noData :: _ => ([], bound, 1, none)
  | bound, FetchStep.err d :: _ => ([], bound, 1, some (OdbcErr.fetchError d))
  | bound, FetchStep.unexpected s :: _ =>
      ([], bound, 1, some (OdbcErr.fetchUnexpected s))
  | bound, FetchStep.row _ ws :: rest =>
      let bound' := applyWrites bound ws
      match readRow bound' with
      | Except.error c => ([], bound', 1, some (OdbcErr.decodeUnknownCType c))
      | Except.ok r =>
          let t := fetchLoop bound' rest
          (r :: t.1, t.2.1, t.2.2.1 + 1, t.2.2.2)

/-- Everything `OdbcRequest.execute` does inside its `try` block
(`src/unnamed/part_000` lines 66-98): bind parameters, execute
directly, and when columns exist bind them and fetch every row.
Returns the outcome, the request state as it stands when the `finally`
block is entered, and the native calls issued so far. -/
def executeBody (o : StmtOracle) (params : List JSValue) :
    Except OdbcErr (Int × List Row) × ReqState × List Event :=
  let s0 : ReqState := ⟨some o.handle, [], []⟩
  let p := bindParamsAux o 1 params
  let s1 := { s0 with paramBindings := p.1 }
  match p.2.2 with
  | some e => (Except.error e, s1, p.2.1)
  | none =>
    match o.execResult with
    | Except.error d =>
        (Except.error (OdbcErr.execError d), s1, p.2.1 ++ [Event.execDirectCall])
    | Except.ok (colCount, numAff) =>
      if colCount = 0 then
        (Except.ok (numAff, []), s1, p.2.1 ++ [Event.execDirectCall])
      else
        let c := bindColsAux o colCount 1
        let s2 := { s1 with colBindings := c.1 }
        match c.2.2 with
        | some e => (Except.error e, s2, p.2.1 ++ Event.execDirectCall :: c.2.1)
        | none =>
          let f := fetchLoop c.1 o.fetches
          let s3 := { s2 with colBindings := f.2.1 }
          let tr := p.2.1 ++ Event.execDirectCall :: c.2.1 ++
            List.replicate f.2.2.1 Event.fetchCall
          match f.2.2.2 with
          | some e => (Except.error e, s3, tr)
          | none => (Except.ok (numAff, f.1), s3, tr)

/-- Result of one complete `execute` run. -/
structure ExecRun where
  result : Except OdbcErr (Int × List Row)
  state : ReqState
  trace : List Event
deriving DecidableEq, Repr

/-- `OdbcRequest.execute`: allocate the statement handle, run the body,
and run `#cleanup` on every exit path (the `finally` block). -/
def executeRun (o : StmtOracle) (params : List JSValue) : ExecRun :=
  let b := executeBody o params
  let c := cleanup b.2.1
  ⟨b.1, c.1, Event.allocStmt :: b.2.2 ++ [c.2]⟩

/-! ## The chunked stream -/

/-- The chunk-accumulation loop of `OdbcRequest.stream`
(`src/unnamed/part_000` lines 121-134): rows are appended to an
in-progress buffer; a chunk is emitted when the buffer reaches
`chunkSize`; on exhaustion a non-empty partial buffer is emitted once.
`budget` models the consumer: `some b` means the consumer stops pulling
after receiving its `b`-th chunk (the generator is then resumed with
`return` at that `yield`, so no further fetch happens); `none` consumes
to exhaustion.  `emitted` counts chunks already delivered. -/
def streamLoop (k : Int) (budget : Option Nat) :
    List (String × ColBinding) → Nat → List Row → List FetchStep →
    List (List Row) × List (String × ColBinding) × Nat × Option OdbcErr
  | bound, _, buffer, [] =>
      ((if buffer.isEmpty then [] else [buffer]), bound, 0, none)
  | bound, _, buffer, FetchStep.noData :: _ =>
      ((if buffer.isEmpty then [] else [buffer]), bound, 1, none)
  | bound, _, _, FetchStep.err d :: _ => ([], bound, 1, some (OdbcErr.fetchError d))
  | bound, _, _, FetchStep.unexpected s :: _ =>
      ([], bound, 1, some (OdbcErr.fetchUnexpected s))
  | bound, emitted, buffer, FetchStep.row _ ws :: rest =>
      let bound' := applyWrites bound ws
      match readRow bound' with
      | Except.error c => ([], bound', 1, some (OdbcErr.decodeUnknownCType c))
      | Except.ok r =>
          let buf' := buffer ++ [r]
          if k ≤ (buf'.length : Int) then
            if budget = some (emitted + 1) then
              ([buf'], bound', 1, none)
            else
              let t := streamLoop k budget bound' (emitted + 1) [] rest
              (buf' :: t.1, t.2.1, t.2.2.1 + 1, t.2.2.2)
          else
            let t := streamLoop k budget bound' emitted buf' rest
            (t.1, t.2.1, t.2.2.1 + 1, t.2.2.2)

/-- Everything `OdbcRequest.stream` does inside its `try` block
(`src/unnamed/part_000` lines 100-138).  Returns the chunks delivered
to the consumer, the outcome, the state on entry to `finally`, and the
native calls issued. -/
def streamBody (o : StmtOracle) (params : List JSValue) (k : Int)
    (budget : Option Nat) :
    List (List Row) × Except OdbcErr Unit × ReqState × List Event :=
  let s0 : ReqState := ⟨some o.handle, [], []⟩
  let p := bindParamsAux o 1 params
  let s1 := { s0 with paramBindings := p.1 }
  match p.2.2 with
  | some e => ([], Except.error e, s1, p.2.1)
  | none =>
    match o.execResult with
    | Except.error d =>
        ([], Except.error (OdbcErr.execError d), s1, p.2.1 ++ [Event.execDirectCall])
    | Except.ok (colCount, _) =>
      if colCount = 0 then
        ([[]], Except.ok (), s1, p.2.1 ++ [Event.execDirectCall])
      else
        let c := bindColsAux o colCount 1
        let s2 := { s1 with colBindings := c.1 }
        match c.2.2 with
        | some e => ([], Except.error e, s2, p.2.1 ++ Event.execDirectCall :: c.2.1)
        | none =>
          let f := streamLoop k budget c.1 0 [] o.fetches
          let s3 := { s2 with colBindings := f.2.1 }
          let tr := p.2.1 ++ Event.execDirectCall :: c.2.1 ++
            List.replicate f.2.2.1 Event.fetchCall
          match f.2.2.2 with
          | some e => (f.1, Except.error e, s3, tr)
          | none => (f.1, Except.ok (), s3, tr)

/-- Result of one complete `stream` run. -/
structure StreamRun where
  chunks : List (List Row)
  result : Except OdbcErr Unit
  state : ReqState
  trace : List Event
deriving DecidableEq, Repr

/-- `OdbcRequest.stream` as observed by one consumer.  A consumer that
never pulls (`budget = some 0`) never starts the generator body: no
handle is allocated and nothing needs cleanup.  Every started run ends
in the `finally` block running `#cleanup` exactly once — also when the
consumer abandons the iteration early. -/
def streamRun (o : StmtOracle) (params : List JSValue) (k : Int)
    (budget : Option Nat) : StreamRun :=
  if budget = some 0 then ⟨[], Except.ok (), ⟨none, [], []⟩, []⟩
  else
    let b := streamBody o params k budget
    let c := cleanup b.2.2.1
    ⟨b.1, b.2.1, c.1, Event.allocStmt :: b.2.2.2 ++ [c.2]⟩

/-! ## The connection layer (`src/connection.ts`) -/

/-- The `OdbcConnection` fields the modelled methods read or write. -/
structure OdbcConnection where
  dbcHandle : Option Nat
  hasSocketError : Bool
deriving DecidableEq, Repr

/-- Errors surfaced by the connection layer. -/
inductive ConnErr where
  | connectionClosed
  | invalidChunkSize
  | requestError (e : OdbcErr)
deriving DecidableEq, Repr

/-- Native calls issued by `OdbcConnection.destroy`. -/
inductive ConnEvent where
  | disconnectCall (h : Nat)
  | freeDbcCall (h : Nat)
deriving DecidableEq, Repr

/-- `OdbcConnection.executeQuery` (`src/connection.ts` lines 44-60): the
closed-handle guard runs before a request is constructed or any native
call is issued; on success a driver-reported affected-row count of `-1n`
is surfaced as an absent value. -/
def executeQuery (c : OdbcConnection) (o : StmtOracle) (params : List JSValue) :
    Except ConnErr (Option Int × List Row) × List Event :=
  match c.dbcHandle with
  | none => (Except.error ConnErr.connectionClosed, [])
  | some _ =>
      let r := executeRun o params
      match r.result with
      | Except.error e => (Except.error (ConnErr.requestError e), r.trace)
      | Except.ok (numAff, rows) =>
          (Except.ok ((if numAff = -1 then none else some numAff), rows), r.trace)

/-- Lifting a finished stream run to the connection layer's view: the
chunks the consumer received, or the surfaced request error. -/
def liftStream (r : StreamRun) : Except ConnErr (List (List Row)) :=
  match r.result with
  | Except.error e => Except.error (ConnErr.requestError e)
  | Except.ok _ => Except.ok r.chunks

/-- `OdbcConnection.streamQuery` (`src/connection.ts` lines 62-79): the
closed-handle guard runs first, then `chunkSize` is validated
(`Number.isInteger(chunkSize)` and `chunkSize > 0`; the JS number is
modelled as a rational, whose integrality is `den = 1`), and only then
is a request constructed and its `stream` driven.  Both guards fire
before any native call: the trace is empty.  The run is observed once
the consumer starts iterating, which is when the generator body runs. -/
def streamQuery (c : OdbcConnection) (o : StmtOracle) (params : List JSValue)
    (chunkSize : ℚ) (budget : Option Nat) :
    Except ConnErr (List (List Row)) × List Event :=
  match c.dbcHandle with
  | none => (Except.error ConnErr.connectionClosed, [])
  | some _ =>
      if ¬(chunkSize.den = 1) ∨ chunkSize ≤ 0 then
        (Except.error ConnErr.invalidChunkSize, [])
      else
        let r := streamRun o params chunkSize.num budget
        (liftStream r, r.trace)

/-- `OdbcConnection.destroy` (`src/connection.ts` lines 88-99): a null
handle returns at once with no native call; otherwise disconnect
(errors ignored), free the connection handle and null the field. -/
def destroy (c : OdbcConnection) : OdbcConnection × List ConnEvent :=
  match c.dbcHandle with
  | none => (c, [])
  | some h =>
      ({ c with dbcHandle := none }, [ConnEvent.disconnectCall h, ConnEvent.freeDbcCall h])

/-! ## Diagnostics (`getOdbcError`, `src/unnamed/part_003` lines 270-305)

The driver's diagnostic records are an oracle `resp : Nat → DiagResp`
giving, for each record number, the return status of `SQLGetDiagRecW`
and the decoded state, message and native error code (the UTF-16
marshalling of the record buffers is abstracted at the decoded-string
level).  The source loop is modelled with explicit fuel: exhausted fuel
returns `none`, so the loop terminates in the model precisely when some
fuel makes it return `some`. -/

/-- One response of `SQLGetDiagRecW` for one record number. -/
structure DiagResp where
  ret : Int
  state : String
  msg : String
  code : Int

/-- The record string pushed by the loop body. -/
def formatRec (r : DiagResp) : String :=
  "[" ++ r.state ++ "] " ++ r.msg ++ " (Code: " ++ toString r.code ++ ")"

/-- The final join: collected records joined by newlines, or the
fallback message when no record was collected. -/
def joinOrFallback (errors : List String) : String :=
  if errors.isEmpty then "Unknown ODBC Error" else String.intercalate "\n" errors

/-- The `while (true)` walk of `getOdbcError`: record number `i`, the
records collected so far, and fuel bounding the number of iterations
observed.  Only the `SQL_NO_DATA` status stops the walk; every other
status (including `SQL_ERROR` and `SQL_INVALID_HANDLE`) appends a record
and continues with the next record number. -/
def getOdbcErrorFuel (resp : Nat → DiagResp) : Nat → Nat → List String → Option String
  | 0, _, _ => none
  | fuel + 1, i, acc =>
      if (resp i).ret = SQL_NO_DATA then some (joinOrFallback acc)
      else getOdbcErrorFuel resp fuel (i + 1) (acc ++ [formatRec (resp i)])

/-- A diagnostic walk that hits `SQL_NO_DATA` after `k` more records
finishes within `k + 1` iterations. -/
theorem getOdbcErrorFuel_isSome (resp : Nat → DiagResp) :
    ∀ (k i : Nat) (acc : List String), (resp (i + k)).ret = SQL_NO_DATA →
      (getOdbcErrorFuel resp (k + 1) i acc).isSome := by
  intro k
  induction k with
  | zero =>
      intro i acc h
      rw [Nat.add_zero] at h
      simp [getOdbcErrorFuel, h]
  | succ k ih =>
      intro i acc h
      by_cases h0 : (resp i).ret = SQL_NO_DATA
      · simp [getOdbcErrorFuel, h0]
      · simp only [getOdbcErrorFuel, if_neg h0]
        exact ih (i + 1) (acc ++ [formatRec (resp i)])
          (by rwa [show (i + 1) + k = i + (k + 1) by omega])

/-- A diagnostic walk that finishes saw `SQL_NO_DATA` at some record. -/
theorem getOdbcErrorFuel_noData_of_isSome (resp : Nat → DiagResp) :
    ∀ (fuel i : Nat) (acc : List String),
      (getOdbcErrorFuel resp fuel i acc).isSome →
      ∃ k, (resp (i + k)).ret = SQL_NO_DATA := by
  intro fuel
  induction fuel with
  | zero => intro i acc h; simp [getOdbcErrorFuel] at h
  | succ fuel ih =>
      intro i acc h
      by_cases h0 : (resp i).ret = SQL_NO_DATA
      · exact ⟨0, by rwa [Nat.add_zero]⟩
      · simp only [getOdbcErrorFuel, if_neg h0] at h
        obtain ⟨k, hk⟩ := ih (i + 1) (acc ++ [formatRec (resp i)]) h
        exact ⟨k + 1, by rwa [show i + (k + 1) = (i + 1) + k by omega]⟩

/-- Full characterisation of a finishing walk: the result is the
accumulated records joined (or the fallback over an empty record
list). -/
theorem getOdbcErrorFuel_result (resp : Nat → DiagResp) :
    ∀ (k i : Nat) (acc : List String) (fuel : Nat), k < fuel →
      (∀ j, j < k → (resp (i + j)).ret ≠ SQL_NO_DATA) →
      (resp (i + k)).ret = SQL_NO_DATA →
      getOdbcErrorFuel resp fuel i acc =
        some (joinOrFallback
          (acc ++ (List.range k).map (fun j => formatRec (resp (i + j))))) := by
  intro k
  induction k with
  | zero =>
      intro i acc fuel hfuel hprev h
      obtain ⟨f, rfl⟩ : ∃ f, fuel = f + 1 := ⟨fuel - 1, by omega⟩
      rw [Nat.add_zero] at h
      simp [getOdbcErrorFuel, h]
  | succ k ih =>
      intro i acc fuel hfuel hprev h
      obtain ⟨f, rfl⟩ : ∃ f, fuel = f + 1 := ⟨fuel - 1, by omega⟩
      have h0 : (resp i).ret ≠ SQL_NO_DATA := by
        have := hprev 0 (Nat.succ_pos k)
        rwa [Nat.add_zero] at this
      have hmap : (List.range (k + 1)).map (fun j => formatRec (resp (i + j))) =
          formatRec (resp i) ::
            (List.range k).map (fun j => formatRec (resp ((i + 1) + j))) := by
        rw [List.range_succ_eq_map, List.map_cons, List.map_map]
        simp only [Nat.add_zero]
        have hfun : ((fun j => formatRec (resp (i + j))) ∘ Nat.succ) =
            (fun j => formatRec (resp ((i + 1) + j))) := by
          funext j
          have hidx : i + Nat.succ j = (i + 1) + j := by omega
          simp [Function.comp_apply, hidx]
        rw [hfun]
      have harg : ∀ j, j < k → (resp ((i + 1) + j)).ret ≠ SQL_NO_DATA := by
        intro j hj
        have := hprev (j + 1) (by omega)
        rwa [show i + (j + 1) = (i + 1) + j by omega] at this
      have hend : (resp ((i + 1) + k)).ret = SQL_NO_DATA := by
        rwa [show (i + 1) + k = i + (k + 1) by omega]
      calc getOdbcErrorFuel resp (f + 1) i acc
      _ = getOdbcErrorFuel resp f (i + 1) (acc ++ [formatRec (resp i)]) := by
          simp only [getOdbcErrorFuel, if_neg h0]
      _ = some (joinOrFallback ((acc ++ [formatRec (resp i)]) ++
            (List.range k).map (fun j => formatRec (resp ((i + 1) + j))))) :=
          ih (i + 1) (acc ++ [formatRec (resp i)]) f (by omega) harg hend
      _ = some (joinOrFallback
            (acc ++ (List.range (k + 1)).map (fun j => formatRec (resp (i + j))))) := by
          rw [List.append_assoc, List.singleton_append, hmap]

/-- Claim C9: the diagnostic walk of `getOdbcError` stops only at
`SQL_NO_DATA`: the walk terminates for precisely those driver behaviours
`resp` in which some record number yields `SQL_NO_DATA`; at every other
status — `SQL_ERROR` and `SQL_INVALID_HANDLE` included — the loop
appends a record and continues with the next record number; when it
terminates with the first `SQL_NO_DATA` at record `1 + k`, it returns
the join of the `k` preceding records, which for `k = 0` is the
non-empty fallback message. -/
theorem c9_diag_walk_termination (resp : Nat → DiagResp) :
    ((∃ n, 1 ≤ n ∧ (resp n).ret = SQL_NO_DATA) ↔
      (∃ fuel, (getOdbcErrorFuel resp fuel 1 []).isSome)) ∧
    (∀ (fuel i : Nat) (acc : List String), (resp i).ret ≠ SQL_NO_DATA →
      getOdbcErrorFuel resp (fuel + 1) i acc =
        getOdbcErrorFuel resp fuel (i + 1) (acc ++ [formatRec (resp i)])) ∧
    (∀ (k fuel : Nat), k < fuel →
      (∀ j, j < k → (resp (1 + j)).ret ≠ SQL_NO_DATA) →
      (resp (1 + k)).ret = SQL_NO_DATA →
      getOdbcErrorFuel resp fuel 1 [] =
        some (joinOrFallback
          ((List.range k).map (fun j => formatRec (resp (1 + j)))))) ∧
    joinOrFallback [] = "Unknown ODBC Error" ∧
    "Unknown ODBC Error" ≠ "" := by
  refine ⟨⟨?_, ?_⟩, ?_, ?_, rfl, by decide⟩
  · rintro ⟨n, hn1, hn⟩
    refine ⟨(n - 1) + 1, getOdbcErrorFuel_isSome resp (n - 1) 1 [] ?_⟩
    rwa [show 1 + (n - 1) = n by omega]
  · rintro ⟨fuel, hfuel⟩
    obtain ⟨k, hk⟩ := getOdbcErrorFuel_noData_of_isSome resp fuel 1 [] hfuel
    exact ⟨1 + k, by omega, hk⟩
  · intro fuel i acc h
    simp only [getOdbcErrorFuel, if_neg h]
  · intro k fuel hfuel hprev h
    simpa using getOdbcErrorFuel_result resp k 1 [] fuel hfuel hprev h

/-- A driver behaviour for the diagnostics walk: two records then
`SQL_NO_DATA`. -/
def demoDiagResp : Nat → DiagResp := fun i =>
  if 3 ≤ i then ⟨SQL_NO_DATA, "", "", 0⟩ else ⟨SQL_ERROR, "08S01", "boom", 10⟩

/-- Witness for C9: the walk over `demoDiagResp` finishes and joins the
two records preceding the first `SQL_NO_DATA`. -/
theorem c9_diag_walk_termination_witness :
    getOdbcErrorFuel demoDiagResp 5 1 [] =
      some (joinOrFallback
        ((List.range 2).map (fun j => formatRec (demoDiagResp (1 + j))))) ∧
    joinOrFallback [] = "Unknown ODBC Error" :=
  ⟨(c9_diag_walk_termination demoDiagResp).2.2.1 2 5 (by decide)
      (fun j hj => by
        have : j = 0 ∨ j = 1 := by omega
        rcases this with hj0 | hj1
        · subst hj0; decide
        · subst hj1; decide)
      (by decide),
    (c9_diag_walk_termination demoDiagResp).2.2.2.1⟩

/-! ## Pure chunking

`chunkAux k buffer rows` is the chunk sequence the stream loop delivers
over `rows` when it starts with `buffer` already accumulated: a chunk is
emitted whenever the buffer reaches `k` elements, and a final non-empty
partial buffer is emitted once. -/

def chunkAux (k : Nat) : List α → List α → List (List α)
  | buf, [] => if buf.isEmpty then [] else [buf]
  | buf, r :: rs =>
      let buf' := buf ++ [r]
      if k ≤ buf'.length then buf' :: chunkAux k [] rs
      else chunkAux k buf' rs

theorem chunkAux_flatten (k : Nat) :
    ∀ (l buf : List α), (chunkAux k buf l).flatten = buf ++ l := by
  intro l
  induction l with
  | nil =>
      intro buf
      cases buf <;> simp [chunkAux]
  | cons r rs ih =>
      intro buf
      simp only [chunkAux]
      by_cases hl : k ≤ (buf ++ [r]).length
      · rw [if_pos hl]
        simp [ih]
      · rw [if_neg hl]
        rw [ih]
        simp

theorem chunkAux_small (k : Nat) :
    ∀ (l buf : List α), (buf ++ l).length < k →
      chunkAux k buf l = if (buf ++ l).isEmpty then [] else [buf ++ l] := by
  intro l
  induction l with
  | nil =>
      intro buf h
      rw [List.append_nil]
      rfl
  | cons r rs ih =>
      intro buf h
      have harith : buf.length + rs.length + 1 < k := by
        have := h
        simp only [List.length_append, List.length_cons] at this
        omega
      simp only [chunkAux]
      have hlen : ¬ k ≤ (buf ++ [r]).length := by
        simp only [List.length_append, List.length_cons, List.length_nil]
        omega
      rw [if_neg hlen]
      have harg : ((buf ++ [r]) ++ rs).length < k := by
        simp only [List.length_append, List.length_cons, List.length_nil]
        omega
      rw [ih (buf ++ [r]) harg]
      have hassoc : (buf ++ [r]) ++ rs = buf ++ (r :: rs) := by simp
      rw [hassoc]

theorem chunkAux_step (k : Nat) :
    ∀ (l buf : List α), buf.length < k → k ≤ buf.length + l.length →
      chunkAux k buf l =
        (buf ++ l.take (k - buf.length)) :: chunkAux k [] (l.drop (k - buf.length)) := by
  intro l
  induction l with
  | nil =>
      intro buf hb hk
      simp only [List.length_nil, Nat.add_zero] at hk
      omega
  | cons r rs ih =>
      intro buf hb hk
      have hlapp : (buf ++ [r]).length = buf.length + 1 := by
        simp
      simp only [chunkAux]
      by_cases hl : k ≤ (buf ++ [r]).length
      · rw [if_pos hl]
        have hkeq : k - buf.length = 1 := by
          rw [hlapp] at hl
          omega
        rw [hkeq]
        simp
      · rw [if_neg hl]
        rw [hlapp] at hl
        have hb' : (buf ++ [r]).length < k := by
          rw [hlapp]
          omega
        have hk' : k ≤ (buf ++ [r]).length + rs.length := by
          rw [hlapp]
          simp only [List.length_cons] at hk
          omega
        rw [ih (buf ++ [r]) hb' hk']
        have hm : k - buf.length = (k - (buf ++ [r]).length) + 1 := by
          rw [hlapp]
          omega
        rw [hm, List.take_succ_cons, List.drop_succ_cons]
        simp

theorem chunkAux_ne_nil (k : Nat) :
    ∀ (l buf : List α), buf ≠ [] ∨ l ≠ [] → chunkAux k buf l ≠ [] := by
  intro l
  induction l with
  | nil =>
      intro buf h
      rcases h with h | h
      · cases buf with
        | nil => exact absurd rfl h
        | cons a as => simp [chunkAux]
      · exact absurd rfl h
  | cons r rs ih =>
      intro buf h
      simp only [chunkAux]
      by_cases hl : k ≤ (buf ++ [r]).length
      · rw [if_pos hl]
        simp
      · rw [if_neg hl]
        exact ih (buf ++ [r]) (Or.inl (by simp))

theorem chunkAux_length (k : Nat) (hk : 1 ≤ k) :
    ∀ (n : Nat) (l : List α), l.length = n →
      (chunkAux k [] l).length = (n + k - 1) / k := by
  intro n
  induction n using Nat.strong_induction_on with
  | _ n ih =>
      intro l hl
      by_cases hsmall : l.length < k
      · cases l with
        | nil =>
            have hn0 : n = 0 := by simpa using hl.symm
            subst hn0
            have hch : chunkAux k ([] : List α) [] = [] := rfl
            rw [hch]
            have hdv : (0 + k - 1) / k = 0 := Nat.div_eq_of_lt (by omega)
            rw [hdv]
            rfl
        | cons a as =>
            rw [chunkAux_small k (a :: as) [] (by simpa using hsmall)]
            have hcons : (([] : List α) ++ a :: as).isEmpty = false := rfl
            rw [hcons]
            simp only [Bool.false_eq_true, if_false, List.length_singleton]
            have h1 : 1 * k ≤ n + k - 1 := by
              simp only [List.length_cons] at hl
              omega
            have h2 : n + k - 1 < 2 * k := by
              simp only [List.length_cons] at hl
              simp only [List.length_cons] at hsmall
              omega
            exact (Nat.div_eq_of_lt_le h1 h2).symm
      · push_neg at hsmall
        rw [chunkAux_step k l [] (by simp only [List.length_nil]; omega)
          (by simpa using hsmall)]
        simp only [List.length_nil, Nat.sub_zero, List.nil_append, List.length_cons]
        have hdrop : (l.drop k).length = n - k := by
          simp [hl]
        rw [ih (n - k) (by omega) (l.drop k) hdrop]
        have h1 : n + k - 1 = (n - k + k - 1) + k := by omega
        rw [h1, Nat.add_div_right _ (by omega)]

theorem chunkAux_dropLast (k : Nat) (hk : 1 ≤ k) :
    ∀ (n : Nat) (l : List α), l.length = n →
      ∀ ch ∈ (chunkAux k [] l).dropLast, ch.length = k := by
  intro n
  induction n using Nat.strong_induction_on with
  | _ n ih =>
      intro l hl ch hch
      by_cases hsmall : l.length < k
      · rw [chunkAux_small k l [] (by simpa using hsmall)] at hch
        rcases l with _ | ⟨a, as⟩
        · simp at hch
        · simp at hch
      · push_neg at hsmall
        rw [chunkAux_step k l [] (by simp only [List.length_nil]; omega)
          (by simpa using hsmall)] at hch
        simp only [List.length_nil, Nat.sub_zero, List.nil_append] at hch
        rcases hrest : chunkAux k [] (l.drop k) with _ | ⟨b, rest'⟩
        · rw [hrest] at hch
          simp at hch
        · rw [hrest] at hch
          rw [List.dropLast_cons₂] at hch
          rcases List.mem_cons.mp hch with hch | hch
          · subst hch
            rw [List.length_take]
            omega
          · have hdrop : (l.drop k).length = n - k := by simp [hl]
            exact ih (n - k) (by omega) (l.drop k) hdrop ch (by rw [hrest]; exact hch)

theorem chunkAux_getLast (k : Nat) (hk : 1 ≤ k) :
    ∀ (n : Nat) (l : List α), l.length = n → l ≠ [] →
      ∃ lc, (chunkAux k [] l).getLast? = some lc ∧
        lc.length = (if n % k = 0 then k else n % k) := by
  intro n
  induction n using Nat.strong_induction_on with
  | _ n ih =>
      intro l hl hne
      by_cases hsmall : l.length < k
      · rw [chunkAux_small k l [] (by simpa using hsmall)]
        rcases l with _ | ⟨a, as⟩
        · exact absurd rfl hne
        · refine ⟨a :: as, by simp, ?_⟩
          have hlt : n < k := by rw [← hl]; exact hsmall
          have hn1 : 1 ≤ n := by rw [← hl]; simp
          have hmod : n % k = n := Nat.mod_eq_of_lt hlt
          rw [hmod, if_neg (by omega)]
          exact hl
      · push_neg at hsmall
        rw [chunkAux_step k l [] (by simp only [List.length_nil]; omega)
          (by simpa using hsmall)]
        simp only [List.length_nil, Nat.sub_zero, List.nil_append]
        rcases hdec : l.drop k with _ | ⟨b, rest⟩
        · have hnk : n = k := by
            have hlen := congrArg List.length hdec
            simp [hl] at hlen
            omega
          refine ⟨l.take k, ?_, ?_⟩
          · rfl
          · rw [List.length_take]
            have hmod : n % k = 0 := by
              rw [hnk]
              exact Nat.mod_self k
            rw [if_pos hmod]
            omega
        · have hdropne : l.drop k ≠ [] := by rw [hdec]; simp
          have hdroplen : (l.drop k).length = n - k := by simp [hl]
          obtain ⟨lc, hlast, hlen⟩ := ih (n - k) (by omega) (l.drop k) hdroplen hdropne
          rw [hdec] at hlast
          refine ⟨lc, ?_, ?_⟩
          · have hchne : chunkAux k [] (b :: rest) ≠ [] :=
              chunkAux_ne_nil k (b :: rest) [] (Or.inr (by simp))
            rcases hch : chunkAux k [] (b :: rest) with _ | ⟨c, cs⟩
            · exact absurd hch hchne
            · rw [List.getLast?_cons_cons]
              rw [hch] at hlast
              exact hlast
          · have hmodeq : n % k = (n - k) % k := Nat.mod_eq_sub_mod (by omega)
            rw [hmodeq]
            exact hlen

/-! ## Decoding always succeeds on binder-produced bindings -/

/-- The C-type codes the row decoder's switch knows. -/
def KnownCType (c : Int) : Prop :=
  c = SQL_C_SLONG ∨ c = SQL_C_SBIGINT ∨ c = SQL_C_DOUBLE ∨ c = SQL_C_BIT ∨ c = SQL_C_WCHAR

theorem readCell_ok (b : ColBinding) (h : KnownCType b.cType) :
    ∃ v, readCell b = Except.ok v := by
  simp only [readCell]
  by_cases hn : b.lenInd = SQL_NULL_DATA
  · rw [if_pos hn]
    exact ⟨_, rfl⟩
  · rw [if_neg hn]
    rcases h with h | h | h | h | h
    · rw [if_pos (Or.inl h)]
      exact ⟨_, rfl⟩
    · rw [if_pos (Or.inr (Or.inl h))]
      exact ⟨_, rfl⟩
    · rw [if_pos (Or.inr (Or.inr h))]
      exact ⟨_, rfl⟩
    · rw [if_neg (by rw [h]; decide), if_pos h]
      exact ⟨_, rfl⟩
    · rw [if_neg (by rw [h]; decide), if_neg (by rw [h]; decide), if_pos h]
      exact ⟨_, rfl⟩

theorem getColBinding_known (d s : Int) (cb : ColBinding)
    (h : getColBinding d s = Except.ok cb) : KnownCType cb.cType := by
  unfold getColBinding at h
  split_ifs at h <;> cases h <;> simp [KnownCType]

theorem mapSet_mem {α : Type} :
    ∀ (m : List (String × α)) (k : String) (v : α) (p : String × α),
      p ∈ mapSet m k v → p ∈ m ∨ p = (k, v) := by
  intro m
  induction m with
  | nil =>
      intro k v p hp
      simp [mapSet] at hp
      exact Or.inr hp
  | cons q rest ih =>
      intro k v p hp
      obtain ⟨k0, v0⟩ := q
      simp only [mapSet] at hp
      by_cases hq : k0 = k
      · rw [if_pos hq] at hp
        rcases List.mem_cons.mp hp with hp | hp
        · exact Or.inr (by rw [hp, hq])
        · exact Or.inl (List.mem_cons_of_mem _ hp)
      · rw [if_neg hq] at hp
        rcases List.mem_cons.mp hp with hp | hp
        · exact Or.inl (by rw [hp]; exact List.mem_cons_self _ _)
        · rcases ih k v p hp with h1 | h1
          · exact Or.inl (List.mem_cons_of_mem _ h1)
          · exact Or.inr h1

theorem jsMapOf_mem {α : Type} :
    ∀ (l acc : List (String × α)) (p : String × α),
      p ∈ List.foldl (fun m kv => mapSet m kv.1 kv.2) acc l → p ∈ acc ∨ p ∈ l := by
  intro l
  induction l with
  | nil =>
      intro acc p hp
      exact Or.inl hp
  | cons q rest ih =>
      intro acc p hp
      simp only [List.foldl_cons] at hp
      rcases ih (mapSet acc q.1 q.2) p hp with h1 | h1
      · rcases mapSet_mem acc q.1 q.2 p h1 with h2 | h2
        · exact Or.inl h2
        · exact Or.inr (List.mem_cons.mpr (Or.inl (by rw [h2])))
      · exact Or.inr (List.mem_cons_of_mem _ h1)

/-- All bindings in a collection carry a C-type the decoder knows. -/
def AllKnown (bound : List (String × ColBinding)) : Prop :=
  ∀ p ∈ bound, KnownCType p.2.cType

theorem jsMapOf_allKnown (bound : List (String × ColBinding)) (h : AllKnown bound) :
    AllKnown (jsMapOf bound) := by
  intro p hp
  rcases jsMapOf_mem bound [] p hp with h1 | h1
  · simp at h1
  · exact h p h1

theorem readRowAux_ok :
    ∀ (l : List (String × ColBinding)), AllKnown l → ∃ r, readRowAux l = Except.ok r := by
  intro l
  induction l with
  | nil => exact fun _ => ⟨[], rfl⟩
  | cons q rest ih =>
      intro h
      obtain ⟨k0, b⟩ := q
      obtain ⟨v, hv⟩ := readCell_ok b (h (k0, b) (List.mem_cons_self _ _))
      obtain ⟨vs, hvs⟩ := ih (fun p hp => h p (List.mem_cons_of_mem _ hp))
      refine ⟨(k0, v) :: vs, ?_⟩
      simp [readRowAux, hv, hvs, Bind.bind, Except.bind]

theorem readRow_ok (bound : List (String × ColBinding)) (h : AllKnown bound) :
    ∃ r, readRow bound = Except.ok r :=
  readRowAux_ok (jsMapOf bound) (jsMapOf_allKnown bound h)

theorem applyWrites_allKnown :
    ∀ (bs : List (String × ColBinding)) (ws : List (ColBuf × Int)),
      AllKnown bs → AllKnown (applyWrites bs ws) := by
  intro bs
  induction bs with
  | nil =>
      intro ws h p hp
      cases ws <;> simp [applyWrites] at hp
  | cons q bs ih =>
      intro ws h p hp
      cases ws with
      | nil => exact h p hp
      | cons w ws' =>
          obtain ⟨n, b⟩ := q
          obtain ⟨cb, ind⟩ := w
          simp only [applyWrites] at hp
          rcases List.mem_cons.mp hp with hp | hp
          · subst hp
            exact h (n, b) (List.mem_cons_self _ _)
          · exact ih ws' (fun p2 hp2 => h p2 (List.mem_cons_of_mem _ hp2)) p hp

theorem bindColsAux_allKnown (o : StmtOracle) :
    ∀ (remaining i : Nat), AllKnown (bindColsAux o remaining i).1 := by
  intro remaining
  induction remaining with
  | zero =>
      intro i p hp
      simp [bindColsAux] at hp
  | succ n ih =>
      intro i p hp
      simp only [bindColsAux] at hp
      by_cases hsz : (o.descs i).columnSize = 0 ∨ MAX_BIND_SIZE < (o.descs i).columnSize
      · rw [if_pos hsz] at hp
        simp at hp
      · rw [if_neg hsz] at hp
        cases hg : getColBinding (o.descs i).dataType (o.descs i).columnSize with
        | error e =>
            rw [hg] at hp
            simp at hp
        | ok cb =>
            rw [hg] at hp
            by_cases hb : o.bindColOk i = true
            · simp only [hb, if_true] at hp
              rcases List.mem_cons.mp hp with hp | hp
              · subst hp
                exact getColBinding_known _ _ cb hg
              · exact ih (i + 1) p hp
            · simp [hb] at hp

/-! ## The stream loop refines chunked fetching -/

/-- Every step is a row-bearing fetch outcome. -/
def AllRows (steps : List FetchStep) : Prop :=
  ∀ s ∈ steps, ∃ i w, s = FetchStep.row i w

theorem fetchLoop_ok :
    ∀ (steps : List FetchStep) (bound : List (String × ColBinding)),
      AllKnown bound → AllRows steps →
      (fetchLoop bound (steps ++ [FetchStep.noData])).2.2.2 = none ∧
      (fetchLoop bound (steps ++ [FetchStep.noData])).1.length = steps.length ∧
      AllKnown (fetchLoop bound (steps ++ [FetchStep.noData])).2.1 := by
  intro steps
  induction steps with
  | nil =>
      intro bound hK hR
      exact ⟨rfl, rfl, hK⟩
  | cons s rest ih =>
      intro bound hK hR
      obtain ⟨i, w, rfl⟩ := hR s (List.mem_cons_self _ _)
      have hK' : AllKnown (applyWrites bound w) := applyWrites_allKnown bound w hK
      obtain ⟨r, hr⟩ := readRow_ok (applyWrites bound w) hK'
      have hR' : AllRows rest := fun s hs => hR s (List.mem_cons_of_mem _ hs)
      obtain ⟨h1, h2, h3⟩ := ih (applyWrites bound w) hK' hR'
      simp only [List.cons_append, fetchLoop, hr]
      exact ⟨h1, by simp [h2], h3⟩

theorem streamLoop_eq_chunkAux (kn : Nat) :
    ∀ (steps : List FetchStep) (bound : List (String × ColBinding))
      (buffer : List Row) (e : Nat),
      AllKnown bound → AllRows steps →
      streamLoop (kn : Int) none bound e buffer (steps ++ [FetchStep.noData]) =
        (chunkAux kn buffer (fetchLoop bound (steps ++ [FetchStep.noData])).1,
          (fetchLoop bound (steps ++ [FetchStep.noData])).2.1,
          (fetchLoop bound (steps ++ [FetchStep.noData])).2.2.1,
          none) := by
  intro steps
  induction steps with
  | nil =>
      intro bound buffer e hK hR
      simp only [List.nil_append]
      rfl
  | cons s rest ih =>
      intro bound buffer e hK hR
      obtain ⟨i, w, rfl⟩ := hR s (List.mem_cons_self _ _)
      have hK' : AllKnown (applyWrites bound w) := applyWrites_allKnown bound w hK
      obtain ⟨r, hr⟩ := readRow_ok (applyWrites bound w) hK'
      have hR' : AllRows rest := fun s hs => hR s (List.mem_cons_of_mem _ hs)
      simp only [List.cons_append, streamLoop, fetchLoop, hr, List.append_eq]
      by_cases hemit : (kn : Int) ≤ ((buffer ++ [r]).length : Int)
      · rw [if_pos hemit]
        rw [if_neg (by simp : ¬ (none : Option Nat) = some (e + 1))]
        rw [ih (applyWrites bound w) [] (e + 1) hK' hR']
        have hemitN : kn ≤ (buffer ++ [r]).length := by exact_mod_cast hemit
        simp only [chunkAux]
        rw [if_pos hemitN]
      · rw [if_neg hemit]
        rw [ih (applyWrites bound w) (buffer ++ [r]) e hK' hR']
        have hemitN : ¬ kn ≤ (buffer ++ [r]).length :=
          fun hcon => hemit (by exact_mod_cast hcon)
        simp only [chunkAux]
        rw [if_neg hemitN]

end MsOdbc

namespace MsOdbc

/-! ## Shared concrete inputs for witnesses -/

/-- A driver behaviour answering one integer column and three rows
(values 5, 6, 7), every native call succeeding. -/
def demoOracle : StmtOracle :=
  { handle := 7
  , bindParamOk := fun _ => true
  , execResult := Except.ok (1, 0)
  , descs := fun _ => ⟨"c", SQL_INTEGER, 4⟩
  , bindColOk := fun _ => true
  , fetches := [FetchStep.row false [(ColBuf.i32 5, 4)],
                FetchStep.row false [(ColBuf.i32 6, 4)],
                FetchStep.row false [(ColBuf.i32 7, 4)],
                FetchStep.noData] }

/-- The three row-bearing fetch outcomes of `demoOracle`. -/
def demoSteps : List FetchStep :=
  [FetchStep.row false [(ColBuf.i32 5, 4)],
   FetchStep.row false [(ColBuf.i32 6, 4)],
   FetchStep.row false [(ColBuf.i32 7, 4)]]

/-- A driver behaviour reporting zero result columns. -/
def demoOracleNoCols : StmtOracle :=
  { demoOracle with execResult := Except.ok (0, 3) }

/-- A driver behaviour whose second described column has declared size
zero (the first is a valid integer column). -/
def demoOracleBadCol : StmtOracle :=
  { demoOracle with
      execResult := Except.ok (2, 0)
    , descs := fun i => if i = 1 then ⟨"a", SQL_INTEGER, 4⟩ else ⟨"b", SQL_WVARCHAR, 0⟩ }

/-! ## Type-mapper theorems (claim C3) -/

/-- The signed 32-bit range test of `#getParamBinding`. -/
def inInt32 (v : Int) : Prop := -2147483648 ≤ v ∧ v ≤ 2147483647

instance (v : Int) : Decidable (inInt32 v) := by
  unfold inInt32
  infer_instance

/-- The mapping chose the 4-byte signed-integer descriptor:
`SQL_C_SLONG` / `SQL_INTEGER` with `bufLen` 4. -/
def isDesc4 (r : Except OdbcErr ParamBinding) : Prop :=
  ∃ b, r = Except.ok b ∧ b.cType = SQL_C_SLONG ∧ b.sqlType = SQL_INTEGER ∧ b.bufLen = 4

/-- The mapping chose the 8-byte signed-integer descriptor:
`SQL_C_SBIGINT` / `SQL_BIGINT` with `bufLen` 8. -/
def isDesc8 (r : Except OdbcErr ParamBinding) : Prop :=
  ∃ b, r = Except.ok b ∧ b.cType = SQL_C_SBIGINT ∧ b.sqlType = SQL_BIGINT ∧ b.bufLen = 8

theorem intParamBinding_pos (v : Int) (h : inInt32 v) :
    intParamBinding v = ⟨SQL_C_SLONG, SQL_INTEGER, ParamBuf.int32 v, 0, 0, 4, 4⟩ := by
  unfold intParamBinding
  exact if_pos h

theorem intParamBinding_neg (v : Int) (h : ¬ inInt32 v) :
    intParamBinding v = ⟨SQL_C_SBIGINT, SQL_BIGINT, ParamBuf.int64 v, 0, 0, 8, 8⟩ := by
  unfold intParamBinding
  exact if_neg h

theorem isDesc4_intParamBinding (v : Int) :
    isDesc4 (Except.ok (intParamBinding v)) ↔ inInt32 v := by
  constructor
  · rintro ⟨b, hb, hc, -, -⟩
    by_contra h
    rw [intParamBinding_neg v h] at hb
    cases hb
    simp [SQL_C_SBIGINT, SQL_C_SLONG] at hc
  · intro h
    exact ⟨_, by rw [intParamBinding_pos v h], rfl, rfl, rfl⟩

theorem isDesc8_intParamBinding (v : Int) :
    isDesc8 (Except.ok (intParamBinding v)) ↔ ¬ inInt32 v := by
  constructor
  · rintro ⟨b, hb, hc, -, -⟩
    intro h
    rw [intParamBinding_pos v h] at hb
    cases hb
    simp [SQL_C_SBIGINT, SQL_C_SLONG] at hc
  · intro h
    exact ⟨_, by rw [intParamBinding_neg v h], rfl, rfl, rfl⟩

/-- Claim C3: for every whole-number JS number and every bigint, the
parameter mapping of `#getParamBinding` produces the 4-byte
`SQL_C_SLONG` / `SQL_INTEGER` descriptor (bufLen 4) exactly when the
value lies in [-2147483648, 2147483647], and the 8-byte `SQL_C_SBIGINT`
/ `SQL_BIGINT` descriptor (bufLen 8) exactly when it lies outside;
bigints follow the same range test (the source shares the branch between
`typeof val === "bigint"` and whole numbers).  The boundary is exact at
±2147483648 / 2147483647 and one beyond, as the closing conjuncts
instantiate. -/
theorem c3_int32_boundary :
    (∀ v : Int,
      (isDesc4 (getParamBinding (JSValue.jsIntNumber v)) ↔ inInt32 v) ∧
      (isDesc8 (getParamBinding (JSValue.jsIntNumber v)) ↔ ¬ inInt32 v) ∧
      (isDesc4 (getParamBinding (JSValue.jsBigInt v)) ↔ inInt32 v) ∧
      (isDesc8 (getParamBinding (JSValue.jsBigInt v)) ↔ ¬ inInt32 v)) ∧
    isDesc4 (getParamBinding (JSValue.jsIntNumber 2147483647)) ∧
    isDesc8 (getParamBinding (JSValue.jsIntNumber 2147483648)) ∧
    isDesc4 (getParamBinding (JSValue.jsIntNumber (-2147483648))) ∧
    isDesc8 (getParamBinding (JSValue.jsIntNumber (-2147483649))) ∧
    isDesc4 (getParamBinding (JSValue.jsBigInt 2147483647)) ∧
    isDesc8 (getParamBinding (JSValue.jsBigInt 2147483648)) ∧
    isDesc4 (getParamBinding (JSValue.jsBigInt (-2147483648))) ∧
    isDesc8 (getParamBinding (JSValue.jsBigInt (-2147483649))) := by
  have base : ∀ v : Int,
      (isDesc4 (getParamBinding (JSValue.jsIntNumber v)) ↔ inInt32 v) ∧
      (isDesc8 (getParamBinding (JSValue.jsIntNumber v)) ↔ ¬ inInt32 v) ∧
      (isDesc4 (getParamBinding (JSValue.jsBigInt v)) ↔ inInt32 v) ∧
      (isDesc8 (getParamBinding (JSValue.jsBigInt v)) ↔ ¬ inInt32 v) := by
    intro v
    exact ⟨isDesc4_intParamBinding v, isDesc8_intParamBinding v,
      isDesc4_intParamBinding v, isDesc8_intParamBinding v⟩
  refine ⟨base, ?_, ?_, ?_, ?_, ?_, ?_, ?_, ?_⟩
  · exact (base 2147483647).1.mpr (by decide)
  · exact (base 2147483648).2.1.mpr (by decide)
  · exact (base (-2147483648)).1.mpr (by decide)
  · exact (base (-2147483649)).2.1.mpr (by decide)
  · exact (base 2147483647).2.2.1.mpr (by decide)
  · exact (base 2147483648).2.2.2.mpr (by decide)
  · exact (base (-2147483648)).2.2.1.mpr (by decide)
  · exact (base (-2147483649)).2.2.2.mpr (by decide)

/-! ## Row-decoding theorems (claims C5 and C6) -/

/-- Claim C5: whatever the binding's native value type and whatever the
data buffer holds, a length/indicator cell equal to `SQL_NULL_DATA`
makes the field decode to null — the indicator test precedes the C-type
switch, so the data buffer is never consulted (the decode result is
independent of the buffer contents), and at row level the field is
null while the remaining fields decode as before. -/
theorem c5_null_indicator_decodes_null (cType bufLen : Int) (content content' : ColBuf) :
    readCell ⟨cType, content, bufLen, SQL_NULL_DATA⟩ = Except.ok SqlValue.null ∧
    readCell ⟨cType, content, bufLen, SQL_NULL_DATA⟩ =
      readCell ⟨cType, content', bufLen, SQL_NULL_DATA⟩ ∧
    (∀ (nm : String) (rest : List (String × ColBinding)),
      readRowAux ((nm, ⟨cType, content, bufLen, SQL_NULL_DATA⟩) :: rest) =
        (readRowAux rest).map (fun vs => (nm, SqlValue.null) :: vs)) := by
  refine ⟨by simp [readCell], by simp [readCell], ?_⟩
  intro nm rest
  cases h : readRowAux rest <;>
    simp [readRowAux, readCell, h, Except.map, Bind.bind, Except.bind]

/-- Claim C6: a wide-character column whose indicator reports `2 * k`
bytes (not the null sentinel) decodes to exactly `k` UTF-16 units taken
from the front of the shared buffer, never the full allocated buffer. -/
theorem c6_wchar_indicator_length (units : List Nat) (bufLen : Int) (k : Nat)
    (hk : k ≤ units.length) :
    readCell ⟨SQL_C_WCHAR, ColBuf.wchar units, bufLen, (2 * (k : Int))⟩ =
      Except.ok (SqlValue.text (units.take k)) ∧
    (units.take k).length = k := by
  constructor
  · have hne : ¬ ((2 * (k : Int)) = SQL_NULL_DATA) := by
      simp only [SQL_NULL_DATA]
      omega
    have htn : (2 * (k : Int)).toNat = 2 * k := by
      omega
    simp [readCell, hne, SQL_C_WCHAR, SQL_C_SLONG, SQL_C_SBIGINT, SQL_C_DOUBLE,
      SQL_C_BIT, asUnits, bufToStr, htn, Nat.mul_div_cancel_left]
  · simpa using hk

/-- Witness for C6 at the spec's own example: a buffer allocated for 50
characters with an indicator of 6 bytes decodes to a 3-unit string. -/
theorem c6_wchar_indicator_length_witness :
    readCell ⟨SQL_C_WCHAR, ColBuf.wchar (List.replicate 50 65), 102, (2 * (3 : Int))⟩ =
      Except.ok (SqlValue.text ((List.replicate 50 65).take 3)) ∧
    ((List.replicate 50 65).take 3).length = 3 :=
  c6_wchar_indicator_length (List.replicate 50 65) 102 3 (by simp)

/-! ## Trace helper lemmas -/

theorem bindParamsAux_events (o : StmtOracle) :
    ∀ (ps : List JSValue) (i : Nat) (ev : Event),
      ev ∈ (bindParamsAux o i ps).2.1 → ∃ j, ev = Event.bindParamCall j := by
  intro ps
  induction ps with
  | nil => intro i ev h; simp [bindParamsAux] at h
  | cons v rest ih =>
      intro i ev h
      simp only [bindParamsAux] at h
      cases hg : getParamBinding v with
      | error e => rw [hg] at h; simp at h
      | ok pb =>
          rw [hg] at h
          by_cases hb : o.bindParamOk i = true
          · simp [hb] at h
            cases h with
            | inl h => exact ⟨i, h⟩
            | inr h => exact ih (i + 1) ev h
          · simp [hb] at h
            exact ⟨i, h⟩

theorem bindColsAux_events (o : StmtOracle) :
    ∀ (remaining i : Nat) (ev : Event),
      ev ∈ (bindColsAux o remaining i).2.1 →
        (∃ j, ev = Event.describeColCall j) ∨ (∃ j, ev = Event.bindColCall j) := by
  intro remaining
  induction remaining with
  | zero => intro i ev h; simp [bindColsAux] at h
  | succ n ih =>
      intro i ev h
      simp only [bindColsAux] at h
      by_cases hsz : (o.descs i).columnSize = 0 ∨ MAX_BIND_SIZE < (o.descs i).columnSize
      · simp [hsz] at h
        exact Or.inl ⟨i, h⟩
      · rw [if_neg hsz] at h
        cases hg : getColBinding (o.descs i).dataType (o.descs i).columnSize with
        | error e => rw [hg] at h; simp at h; exact Or.inl ⟨i, h⟩
        | ok cb =>
            rw [hg] at h
            by_cases hb : o.bindColOk i = true
            · simp [hb] at h
              rcases h with h | h | h
              · exact Or.inl ⟨i, h⟩
              · exact Or.inr ⟨i, h⟩
              · exact ih (i + 1) ev h
            · simp [hb] at h
              cases h with
              | inl h => exact Or.inl ⟨i, h⟩
              | inr h => exact Or.inr ⟨i, h⟩

/-- Events a statement body may issue: everything except `freeStmt`
(freeing is the cleanup path's alone) and except `fetchCall` when the
flag demands it.  Stated as two separate exclusion facts below. -/
theorem executeBody_stmtHandle (o : StmtOracle) (params : List JSValue) :
    (executeBody o params).2.1.stmtHandle = some o.handle := by
  unfold executeBody
  dsimp only
  repeat' split
  all_goals rfl

theorem streamBody_stmtHandle (o : StmtOracle) (params : List JSValue) (k : Int)
    (budget : Option Nat) :
    (streamBody o params k budget).2.2.1.stmtHandle = some o.handle := by
  unfold streamBody
  dsimp only
  repeat' split
  all_goals rfl

/-- Every event a statement body can issue is one of the five
non-freeing native calls: `freeStmt` belongs to the cleanup path
alone. -/
def BodyEvent (ev : Event) : Prop :=
  ev = Event.execDirectCall ∨ (∃ j, ev = Event.bindParamCall j) ∨
  (∃ j, ev = Event.describeColCall j) ∨ (∃ j, ev = Event.bindColCall j) ∨
  ev = Event.fetchCall

theorem executeBody_trace_shape (o : StmtOracle) (params : List JSValue) :
    ∀ ev ∈ (executeBody o params).2.2, BodyEvent ev := by
  intro ev hmem
  have hp := bindParamsAux_events o params 1 ev
  unfold executeBody at hmem
  dsimp only at hmem
  cases hb : (bindParamsAux o 1 params).2.2 with
  | some e =>
      rw [hb] at hmem
      exact Or.inr (Or.inl (hp hmem))
  | none =>
      rw [hb] at hmem
      cases he : o.execResult with
      | error d =>
          rw [he] at hmem
          simp only [List.mem_append, List.mem_singleton] at hmem
          rcases hmem with hmem | hmem
          · exact Or.inr (Or.inl (hp hmem))
          · exact Or.inl hmem
      | ok cn =>
          obtain ⟨colCount, numAff⟩ := cn
          rw [he] at hmem
          dsimp only at hmem
          by_cases h0 : colCount = 0
          · rw [if_pos h0] at hmem
            simp only [List.mem_append, List.mem_singleton] at hmem
            rcases hmem with hmem | hmem
            · exact Or.inr (Or.inl (hp hmem))
            · exact Or.inl hmem
          · rw [if_neg h0] at hmem
            have hc := bindColsAux_events o colCount 1 ev
            cases hcb : (bindColsAux o colCount 1).2.2 with
            | some e =>
                rw [hcb] at hmem
                simp only [List.mem_append, List.mem_cons] at hmem
                rcases hmem with hmem | hmem | hmem
                · exact Or.inr (Or.inl (hp hmem))
                · exact Or.inl hmem
                · rcases hc hmem with hx | hx
                  · exact Or.inr (Or.inr (Or.inl hx))
                  · exact Or.inr (Or.inr (Or.inr (Or.inl hx)))
            | none =>
                rw [hcb] at hmem
                cases hf : (fetchLoop (bindColsAux o colCount 1).1 o.fetches).2.2.2 with
                | some e =>
                    rw [hf] at hmem
                    simp only [List.mem_append, List.mem_cons, or_assoc] at hmem
                    rcases hmem with hmem | hmem | hmem | hmem
                    · exact Or.inr (Or.inl (hp hmem))
                    · exact Or.inl hmem
                    · rcases hc hmem with hx | hx
                      · exact Or.inr (Or.inr (Or.inl hx))
                      · exact Or.inr (Or.inr (Or.inr (Or.inl hx)))
                    · exact Or.inr (Or.inr (Or.inr (Or.inr (List.eq_of_mem_replicate hmem))))
                | none =>
                    rw [hf] at hmem
                    simp only [List.mem_append, List.mem_cons, or_assoc] at hmem
                    rcases hmem with hmem | hmem | hmem | hmem
                    · exact Or.inr (Or.inl (hp hmem))
                    · exact Or.inl hmem
                    · rcases hc hmem with hx | hx
                      · exact Or.inr (Or.inr (Or.inl hx))
                      · exact Or.inr (Or.inr (Or.inr (Or.inl hx)))
                    · exact Or.inr (Or.inr (Or.inr (Or.inr (List.eq_of_mem_replicate hmem))))

theorem streamBody_trace_shape (o : StmtOracle) (params : List JSValue) (k : Int)
    (budget : Option Nat) :
    ∀ ev ∈ (streamBody o params k budget).2.2.2, BodyEvent ev := by
  intro ev hmem
  have hp := bindParamsAux_events o params 1 ev
  unfold streamBody at hmem
  dsimp only at hmem
  cases hb : (bindParamsAux o 1 params).2.2 with
  | some e =>
      rw [hb] at hmem
      exact Or.inr (Or.inl (hp hmem))
  | none =>
      rw [hb] at hmem
      cases he : o.execResult with
      | error d =>
          rw [he] at hmem
          simp only [List.mem_append, List.mem_singleton] at hmem
          rcases hmem with hmem | hmem
          · exact Or.inr (Or.inl (hp hmem))
          · exact Or.inl hmem
      | ok cn =>
          obtain ⟨colCount, numAff⟩ := cn
          rw [he] at hmem
          dsimp only at hmem
          by_cases h0 : colCount = 0
          · rw [if_pos h0] at hmem
            simp only [List.mem_append, List.mem_singleton] at hmem
            rcases hmem with hmem | hmem
            · exact Or.inr (Or.inl (hp hmem))
            · exact Or.inl hmem
          · rw [if_neg h0] at hmem
            have hc := bindColsAux_events o colCount 1 ev
            cases hcb : (bindColsAux o colCount 1).2.2 with
            | some e =>
                rw [hcb] at hmem
                simp only [List.mem_append, List.mem_cons] at hmem
                rcases hmem with hmem | hmem | hmem
                · exact Or.inr (Or.inl (hp hmem))
                · exact Or.inl hmem
                · rcases hc hmem with hx | hx
                  · exact Or.inr (Or.inr (Or.inl hx))
                  · exact Or.inr (Or.inr (Or.inr (Or.inl hx)))
            | none =>
                rw [hcb] at hmem
                cases hf : (streamLoop k budget (bindColsAux o colCount 1).1 0 [] o.fetches).2.2.2 with
                | some e =>
                    rw [hf] at hmem
                    simp only [List.mem_append, List.mem_cons, or_assoc] at hmem
                    rcases hmem with hmem | hmem | hmem | hmem
                    · exact Or.inr (Or.inl (hp hmem))
                    · exact Or.inl hmem
                    · rcases hc hmem with hx | hx
                      · exact Or.inr (Or.inr (Or.inl hx))
                      · exact Or.inr (Or.inr (Or.inr (Or.inl hx)))
                    · exact Or.inr (Or.inr (Or.inr (Or.inr (List.eq_of_mem_replicate hmem))))
                | none =>
                    rw [hf] at hmem
                    simp only [List.mem_append, List.mem_cons, or_assoc] at hmem
                    rcases hmem with hmem | hmem | hmem | hmem
                    · exact Or.inr (Or.inl (hp hmem))
                    · exact Or.inl hmem
                    · rcases hc hmem with hx | hx
                      · exact Or.inr (Or.inr (Or.inl hx))
                      · exact Or.inr (Or.inr (Or.inr (Or.inl hx)))
                    · exact Or.inr (Or.inr (Or.inr (Or.inr (List.eq_of_mem_replicate hmem))))

theorem bodyEvent_not_free (ev : Event) (hev : BodyEvent ev) (h : Option Nat) :
    ev ≠ Event.freeStmt h := by
  rcases hev with h1 | ⟨j, h1⟩ | ⟨j, h1⟩ | ⟨j, h1⟩ | h1 <;> subst h1 <;> intro hc <;> cases hc

theorem executeBody_trace_no_free (o : StmtOracle) (params : List JSValue) (h : Option Nat) :
    Event.freeStmt h ∉ (executeBody o params).2.2 := by
  intro hmem
  exact bodyEvent_not_free _ (executeBody_trace_shape o params _ hmem) h rfl

theorem streamBody_trace_no_free (o : StmtOracle) (params : List JSValue) (k : Int)
    (budget : Option Nat) (h : Option Nat) :
    Event.freeStmt h ∉ (streamBody o params k budget).2.2.2 := by
  intro hmem
  exact bodyEvent_not_free _ (streamBody_trace_shape o params k budget _ hmem) h rfl

/-- A started stream run is its body followed by the one cleanup of the
`finally` block. -/
theorem streamRun_started (o : StmtOracle) (params : List JSValue) (k : Int)
    (budget : Option Nat) (hbud : budget ≠ some 0) :
    streamRun o params k budget =
      ⟨(streamBody o params k budget).1, (streamBody o params k budget).2.1,
        ⟨none, [], []⟩,
        Event.allocStmt :: (streamBody o params k budget).2.2.2 ++
          [Event.freeStmt (streamBody o params k budget).2.2.1.stmtHandle]⟩ := by
  unfold streamRun
  rw [if_neg hbud]
  rfl

/-! ## Cleanup discipline (claim C1) -/

/-- Claim C1: every run of `execute`, and every started run of `stream`
(consumed fully or abandoned after any number of chunks), ends with the
cleanup path running exactly once before the outcome reaches the caller:
the trace is some prefix containing no `SQLFreeHandle` call, followed by
exactly one `SQLFreeHandle` of the allocated statement handle as its
last event; afterwards the handle field is null and the parameter and
column binding maps are empty.  Running `#cleanup` a second time from
that state changes nothing and passes null — not the already freed
handle — to `SQLFreeHandle`: a no-op, not a double-free.  (A `stream`
generator whose consumer never pulls never starts the body, allocates
nothing and is not a run.) -/
theorem c1_cleanup_exactly_once (o : StmtOracle) (params : List JSValue) (k : Int)
    (budget : Option Nat) (hbud : budget ≠ some 0) :
    (∃ pre, (executeRun o params).trace = pre ++ [Event.freeStmt (some o.handle)] ∧
      ∀ h, Event.freeStmt h ∉ pre) ∧
    (executeRun o params).state = ⟨none, [], []⟩ ∧
    cleanup (executeRun o params).state =
      ((executeRun o params).state, Event.freeStmt none) ∧
    (∃ pre, (streamRun o params k budget).trace = pre ++ [Event.freeStmt (some o.handle)] ∧
      ∀ h, Event.freeStmt h ∉ pre) ∧
    (streamRun o params k budget).state = ⟨none, [], []⟩ ∧
    cleanup (streamRun o params k budget).state =
      ((streamRun o params k budget).state, Event.freeStmt none) := by
  have hextr : (executeRun o params).trace =
      (Event.allocStmt :: (executeBody o params).2.2) ++
        [Event.freeStmt (executeBody o params).2.1.stmtHandle] := rfl
  have hstr := streamRun_started o params k budget hbud
  refine ⟨?_, rfl, rfl, ?_, ?_, ?_⟩
  · refine ⟨Event.allocStmt :: (executeBody o params).2.2, ?_, ?_⟩
    · rw [hextr, executeBody_stmtHandle]
    · intro h hmem
      rcases List.mem_cons.mp hmem with hmem | hmem
      · cases hmem
      · exact executeBody_trace_no_free o params h hmem
  · refine ⟨Event.allocStmt :: (streamBody o params k budget).2.2.2, ?_, ?_⟩
    · rw [hstr, streamBody_stmtHandle]
    · intro h hmem
      rcases List.mem_cons.mp hmem with hmem | hmem
      · cases hmem
      · exact streamBody_trace_no_free o params k budget h hmem
  · rw [hstr]
  · rw [hstr]
    rfl

/-- Witness for C1: the three-row demo driver behaviour, `execute` and a
stream abandoned after its first chunk. -/
theorem c1_cleanup_exactly_once_witness :
    (∃ pre, (executeRun demoOracle []).trace =
        pre ++ [Event.freeStmt (some demoOracle.handle)] ∧
      ∀ h, Event.freeStmt h ∉ pre) ∧
    (executeRun demoOracle []).state = ⟨none, [], []⟩ ∧
    cleanup (executeRun demoOracle []).state =
      ((executeRun demoOracle []).state, Event.freeStmt none) ∧
    (∃ pre, (streamRun demoOracle [] 2 (some 1)).trace =
        pre ++ [Event.freeStmt (some demoOracle.handle)] ∧
      ∀ h, Event.freeStmt h ∉ pre) ∧
    (streamRun demoOracle [] 2 (some 1)).state = ⟨none, [], []⟩ ∧
    cleanup (streamRun demoOracle [] 2 (some 1)).state =
      ((streamRun demoOracle [] 2 (some 1)).state, Event.freeStmt none) :=
  c1_cleanup_exactly_once demoOracle [] 2 (some 1) (by decide)

/-! ## Zero-column statements (claim C7) -/

/-- Claim C7: when `execDirect` reports zero result columns, `execute`
returns the empty row list (with the driver-reported affected-row
count) and issues no fetch call, and `stream` delivers exactly one chunk
whose row list is empty, completes successfully, and issues no fetch
call either. -/
theorem c7_zero_columns (o : StmtOracle) (params : List JSValue) (m : Int)
    (hp : (bindParamsAux o 1 params).2.2 = none)
    (hexec : o.execResult = Except.ok (0, m))
    (k : Int) (budget : Option Nat) (hbud : budget ≠ some 0) :
    (executeRun o params).result = Except.ok (m, []) ∧
    Event.fetchCall ∉ (executeRun o params).trace ∧
    (streamRun o params k budget).chunks = [[]] ∧
    (streamRun o params k budget).result = Except.ok () ∧
    Event.fetchCall ∉ (streamRun o params k budget).trace := by
  have hfp : Event.fetchCall ∉ (bindParamsAux o 1 params).2.1 := by
    intro hm
    obtain ⟨j, hj⟩ := bindParamsAux_events o params 1 _ hm
    cases hj
  have hbody : executeBody o params =
      (Except.ok (m, []),
        ⟨some o.handle, (bindParamsAux o 1 params).1, []⟩,
        (bindParamsAux o 1 params).2.1 ++ [Event.execDirectCall]) := by
    unfold executeBody
    dsimp only
    rw [hp, hexec]
    simp
  have hsbody : streamBody o params k budget =
      ([[]], Except.ok (),
        ⟨some o.handle, (bindParamsAux o 1 params).1, []⟩,
        (bindParamsAux o 1 params).2.1 ++ [Event.execDirectCall]) := by
    unfold streamBody
    dsimp only
    rw [hp, hexec]
    simp
  have hstr := streamRun_started o params k budget hbud
  refine ⟨?_, ?_, ?_, ?_, ?_⟩
  · show (executeBody o params).1 = _
    rw [hbody]
  · show Event.fetchCall ∉
      (Event.allocStmt :: (executeBody o params).2.2) ++
        [Event.freeStmt (executeBody o params).2.1.stmtHandle]
    rw [hbody]
    simp [hfp]
  · rw [hstr]
    show (streamBody o params k budget).1 = _
    rw [hsbody]
  · rw [hstr]
    show (streamBody o params k budget).2.1 = _
    rw [hsbody]
  · rw [hstr]
    rw [hsbody]
    simp [hfp]

/-- Witness for C7: the zero-column demo driver behaviour. -/
theorem c7_zero_columns_witness :
    (executeRun demoOracleNoCols []).result = Except.ok (3, []) ∧
    Event.fetchCall ∉ (executeRun demoOracleNoCols []).trace ∧
    (streamRun demoOracleNoCols [] 2 none).chunks = [[]] ∧
    (streamRun demoOracleNoCols [] 2 none).result = Except.ok () ∧
    Event.fetchCall ∉ (streamRun demoOracleNoCols [] 2 none).trace :=
  c7_zero_columns demoOracleNoCols [] 3 rfl rfl 2 none (by decide)

/-! ## Connection-level guards (claims C8 and C10) -/

/-- Claim C8: on an open connection, `streamQuery` with a `chunkSize`
that is not a positive integer fails with the validation error before
any native call is issued (the trace is empty: no statement handle is
allocated, no parameter bound); with a positive-integer `chunkSize`
validation passes and the call proceeds to the request's `stream` run
unchanged. -/
theorem c8_chunk_size_validation (c : OdbcConnection) (h : Nat)
    (hopen : c.dbcHandle = some h) (o : StmtOracle) (params : List JSValue)
    (budget : Option Nat) (q : ℚ) :
    (¬(q.den = 1 ∧ 0 < q) →
      streamQuery c o params q budget = (Except.error ConnErr.invalidChunkSize, [])) ∧
    ((q.den = 1 ∧ 0 < q) →
      streamQuery c o params q budget =
        (liftStream (streamRun o params q.num budget),
          (streamRun o params q.num budget).trace)) := by
  constructor
  · intro hbad
    have hcond : ¬(q.den = 1) ∨ q ≤ 0 := by
      by_cases hd : q.den = 1
      · right
        by_contra hq
        exact hbad ⟨hd, not_le.mp hq⟩
      · exact Or.inl hd
    unfold streamQuery
    rw [hopen]
    dsimp only
    rw [if_pos hcond]
  · rintro ⟨hden, hpos⟩
    have hcond : ¬(¬(q.den = 1) ∨ q ≤ 0) := by
      push_neg
      exact ⟨hden, hpos⟩
    unfold streamQuery
    rw [hopen]
    dsimp only
    rw [if_neg hcond]

/-- The rational one half as an explicit reduced fraction. -/
def halfRat : ℚ := Rat.mk' 1 2 (by decide) (Nat.coprime_one_left 2)

/-- The rational two as an explicit reduced fraction. -/
def twoRat : ℚ := Rat.mk' 2 1 (by decide) (Nat.coprime_one_right 2)

/-- Witness for C8: `chunkSize = 1/2` (non-integer) and `chunkSize = 0`
are rejected with no native call; `chunkSize = 2` proceeds. -/
theorem c8_chunk_size_validation_witness :
    streamQuery ⟨some 3, false⟩ demoOracle [] halfRat none =
      (Except.error ConnErr.invalidChunkSize, []) ∧
    streamQuery ⟨some 3, false⟩ demoOracle [] (0 : ℚ) none =
      (Except.error ConnErr.invalidChunkSize, []) ∧
    streamQuery ⟨some 3, false⟩ demoOracle [] twoRat none =
      (liftStream (streamRun demoOracle [] twoRat.num none),
        (streamRun demoOracle [] twoRat.num none).trace) :=
  ⟨(c8_chunk_size_validation ⟨some 3, false⟩ 3 rfl demoOracle [] none halfRat).1
      (fun hc => absurd hc.1 (by decide)),
    (c8_chunk_size_validation ⟨some 3, false⟩ 3 rfl demoOracle [] none (0 : ℚ)).1
      (fun hc => absurd hc.2 (lt_irrefl 0)),
    (c8_chunk_size_validation ⟨some 3, false⟩ 3 rfl demoOracle [] none twoRat).2
      ⟨rfl, Rat.num_pos.mp (by decide)⟩⟩

/-- Claim C10: `executeQuery` and `streamQuery` on a connection whose
handle is null fail at once with the connection-closed error, issuing no
native call and constructing no request (the trace is empty), and
`destroy` on an already-destroyed connection is a no-op that issues no
native call and leaves the handle null. -/
theorem c10_closed_connection (c : OdbcConnection) (hclosed : c.dbcHandle = none)
    (o : StmtOracle) (params : List JSValue) (q : ℚ) (budget : Option Nat) :
    executeQuery c o params = (Except.error ConnErr.connectionClosed, []) ∧
    streamQuery c o params q budget = (Except.error ConnErr.connectionClosed, []) ∧
    destroy c = (c, []) ∧
    (destroy c).1.dbcHandle = none := by
  refine ⟨?_, ?_, ?_, ?_⟩ <;>
    simp [executeQuery, streamQuery, destroy, hclosed]

/-! ## Column-size validation (claim C4) -/

/-- A described column the binder accepts: nonzero declared size within
`MAX_BIND_SIZE`, a supported native data type, and a succeeding native
`bindCol` call. -/
def validCol (o : StmtOracle) (i : Nat) : Prop :=
  (o.descs i).columnSize ≠ 0 ∧ (o.descs i).columnSize ≤ MAX_BIND_SIZE ∧
  (∃ cb, getColBinding (o.descs i).dataType (o.descs i).columnSize = Except.ok cb) ∧
  o.bindColOk i = true

theorem bindColsAux_fails (o : StmtOracle) :
    ∀ (d i remaining : Nat), d < remaining →
      (∀ t, t < d → validCol o (i + t)) →
      ((o.descs (i + d)).columnSize = 0 ∨ MAX_BIND_SIZE < (o.descs (i + d)).columnSize) →
      (bindColsAux o remaining i).2.2 =
        some (OdbcErr.bindColFail (o.descs (i + d)).name (o.descs (i + d)).dataType
          (o.descs (i + d)).columnSize) := by
  intro d
  induction d with
  | zero =>
      intro i remaining hlt hprev hbad
      obtain ⟨n, rfl⟩ : ∃ n, remaining = n + 1 := ⟨remaining - 1, by omega⟩
      rw [Nat.add_zero] at hbad
      simp only [bindColsAux]
      rw [if_pos hbad]
      simp
  | succ d ih =>
      intro i remaining hlt hprev hbad
      obtain ⟨n, rfl⟩ : ∃ n, remaining = n + 1 := ⟨remaining - 1, by omega⟩
      have hv := hprev 0 (Nat.succ_pos d)
      rw [Nat.add_zero] at hv
      obtain ⟨hnz, hle, ⟨cb, hcb⟩, hbo⟩ := hv
      simp only [bindColsAux]
      rw [if_neg (by push_neg; exact ⟨hnz, hle⟩)]
      rw [hcb]
      dsimp only
      rw [if_pos hbo]
      dsimp only
      have harg : ∀ t, t < d → validCol o ((i + 1) + t) := by
        intro t ht
        have := hprev (t + 1) (by omega)
        rwa [show i + (t + 1) = (i + 1) + t by omega] at this
      have hbad' : (o.descs ((i + 1) + d)).columnSize = 0 ∨
          MAX_BIND_SIZE < (o.descs ((i + 1) + d)).columnSize := by
        rwa [show (i + 1) + d = i + (d + 1) by omega]
      have := ih (i + 1) n (by omega) harg hbad'
      rwa [show (i + 1) + d = i + (d + 1) by omega] at this

/-- Claim C4: if the first `j - 1` described columns are bindable but
the `j`-th has declared size zero or above `MAX_BIND_SIZE` (64 KiB), the
statement — whether run through `execute` or `stream` — fails with the
bind error identifying that column's description, the stream delivers no
chunk, and once the failure reaches the caller the column-binding
collection is empty, exactly as it was before binding started (the
request starts with an empty collection and cleanup has cleared the
partially registered bindings). -/
theorem c4_bind_size_validation (o : StmtOracle) (params : List JSValue)
    (colCount : Nat) (m : Int) (j : Nat) (k : Int) (budget : Option Nat)
    (hp : (bindParamsAux o 1 params).2.2 = none)
    (hexec : o.execResult = Except.ok (colCount, m))
    (hbud : budget ≠ some 0)
    (hj1 : 1 ≤ j) (hjc : j ≤ colCount)
    (hprev : ∀ i, 1 ≤ i → i < j → validCol o i)
    (hbad : (o.descs j).columnSize = 0 ∨ MAX_BIND_SIZE < (o.descs j).columnSize) :
    (executeRun o params).result =
      Except.error (OdbcErr.bindColFail (o.descs j).name (o.descs j).dataType
        (o.descs j).columnSize) ∧
    (executeRun o params).state.colBindings = [] ∧
    (executeRun o params).state = ⟨none, [], []⟩ ∧
    (streamRun o params k budget).result =
      Except.error (OdbcErr.bindColFail (o.descs j).name (o.descs j).dataType
        (o.descs j).columnSize) ∧
    (streamRun o params k budget).chunks = [] ∧
    (streamRun o params k budget).state.colBindings = [] := by
  have h0 : colCount ≠ 0 := by omega
  have hone : 1 + (j - 1) = j := by omega
  have hcols : (bindColsAux o colCount 1).2.2 =
      some (OdbcErr.bindColFail (o.descs j).name (o.descs j).dataType
        (o.descs j).columnSize) := by
    have := bindColsAux_fails o (j - 1) 1 colCount (by omega)
      (fun t ht => hprev (1 + t) (by omega) (by omega))
      (by rwa [hone])
    rwa [hone] at this
  have hbody : executeBody o params =
      (Except.error (OdbcErr.bindColFail (o.descs j).name (o.descs j).dataType
          (o.descs j).columnSize),
        ⟨some o.handle, (bindParamsAux o 1 params).1, (bindColsAux o colCount 1).1⟩,
        (bindParamsAux o 1 params).2.1 ++
          Event.execDirectCall :: (bindColsAux o colCount 1).2.1) := by
    unfold executeBody
    dsimp only
    rw [hp, hexec]
    dsimp only
    rw [if_neg h0, hcols]
  have hsbody : streamBody o params k budget =
      ([], Except.error (OdbcErr.bindColFail (o.descs j).name (o.descs j).dataType
          (o.descs j).columnSize),
        ⟨some o.handle, (bindParamsAux o 1 params).1, (bindColsAux o colCount 1).1⟩,
        (bindParamsAux o 1 params).2.1 ++
          Event.execDirectCall :: (bindColsAux o colCount 1).2.1) := by
    unfold streamBody
    dsimp only
    rw [hp, hexec]
    dsimp only
    rw [if_neg h0, hcols]
  have hstr := streamRun_started o params k budget hbud
  refine ⟨?_, rfl, rfl, ?_, ?_, ?_⟩
  · show (executeBody o params).1 = _
    rw [hbody]
  · rw [hstr]
    show (streamBody o params k budget).2.1 = _
    rw [hsbody]
  · rw [hstr]
    show (streamBody o params k budget).1 = _
    rw [hsbody]
  · rw [hstr]

/-- Witness for C4: a two-column result whose second column is declared
with size zero. -/
theorem c4_bind_size_validation_witness :
    (executeRun demoOracleBadCol []).result =
      Except.error (OdbcErr.bindColFail (demoOracleBadCol.descs 2).name
        (demoOracleBadCol.descs 2).dataType (demoOracleBadCol.descs 2).columnSize) ∧
    (executeRun demoOracleBadCol []).state.colBindings = [] ∧
    (executeRun demoOracleBadCol []).state = ⟨none, [], []⟩ ∧
    (streamRun demoOracleBadCol [] 2 none).result =
      Except.error (OdbcErr.bindColFail (demoOracleBadCol.descs 2).name
        (demoOracleBadCol.descs 2).dataType (demoOracleBadCol.descs 2).columnSize) ∧
    (streamRun demoOracleBadCol [] 2 none).chunks = [] ∧
    (streamRun demoOracleBadCol [] 2 none).state.colBindings = [] :=
  c4_bind_size_validation demoOracleBadCol [] 2 0 2 2 none rfl rfl (by decide)
    (by decide) (by decide)
    (fun i h1 h2 => by
      have hi : i = 1 := by omega
      subst hi
      exact ⟨by decide, by decide, ⟨_, rfl⟩, rfl⟩)
    (Or.inl rfl)

/-- Witness for C10: the never-connected connection. -/
theorem c10_closed_connection_witness :
    executeQuery ⟨none, false⟩ demoOracle [] =
      (Except.error ConnErr.connectionClosed, []) ∧
    streamQuery ⟨none, false⟩ demoOracle [] (2 : ℚ) none =
      (Except.error ConnErr.connectionClosed, []) ∧
    destroy ⟨none, false⟩ = (⟨none, false⟩, []) ∧
    (destroy ⟨none, false⟩).1.dbcHandle = none :=
  c10_closed_connection ⟨none, false⟩ rfl demoOracle [] (2 : ℚ) none

/-! ## Stream chunking refines execute (claim C2) -/

/-- Claim C2: for every positive integer `chunkSize` `kn` and every
statement execution whose driver delivers `n ≥ 1` rows (then
`SQL_NO_DATA`) over at least one bound column, `stream` completes
successfully, emits exactly `⌈n / kn⌉` chunks, each of exactly `kn` rows
except possibly the last (which has `n mod kn` rows, or `kn` when
`n mod kn = 0`), and concatenating the emitted chunks in order yields
exactly the row sequence `execute` returns for the identical statement
over the identical driver behaviour. -/
theorem c2_stream_chunking (o : StmtOracle) (params : List JSValue) (kn : Nat)
    (steps : List FetchStep) (colCount : Nat) (m : Int)
    (hk : 1 ≤ kn)
    (hf : o.fetches = steps ++ [FetchStep.noData])
    (hrows : AllRows steps)
    (hn : 1 ≤ steps.length)
    (hp : (bindParamsAux o 1 params).2.2 = none)
    (hexec : o.execResult = Except.ok (colCount, m))
    (hc : 0 < colCount)
    (hb : (bindColsAux o colCount 1).2.2 = none) :
    ∃ rows : List Row,
      (executeRun o params).result = Except.ok (m, rows) ∧
      rows.length = steps.length ∧
      (streamRun o params (kn : Int) none).result = Except.ok () ∧
      (streamRun o params (kn : Int) none).chunks.flatten = rows ∧
      (streamRun o params (kn : Int) none).chunks.length = (steps.length + kn - 1) / kn ∧
      (∀ ch ∈ (streamRun o params (kn : Int) none).chunks.dropLast, ch.length = kn) ∧
      (∃ lc, (streamRun o params (kn : Int) none).chunks.getLast? = some lc ∧
        lc.length = (if steps.length % kn = 0 then kn else steps.length % kn)) := by
  have hKnown : AllKnown (bindColsAux o colCount 1).1 := bindColsAux_allKnown o colCount 1
  have hF := fetchLoop_ok steps (bindColsAux o colCount 1).1 hKnown hrows
  have hS := streamLoop_eq_chunkAux kn steps (bindColsAux o colCount 1).1 [] 0 hKnown hrows
  have hbody : executeBody o params =
      (Except.ok (m,
          (fetchLoop (bindColsAux o colCount 1).1 (steps ++ [FetchStep.noData])).1),
        ⟨some o.handle, (bindParamsAux o 1 params).1,
          (fetchLoop (bindColsAux o colCount 1).1 (steps ++ [FetchStep.noData])).2.1⟩,
        (bindParamsAux o 1 params).2.1 ++
          Event.execDirectCall :: (bindColsAux o colCount 1).2.1 ++
          List.replicate
            (fetchLoop (bindColsAux o colCount 1).1 (steps ++ [FetchStep.noData])).2.2.1
            Event.fetchCall) := by
    unfold executeBody
    dsimp only
    rw [hp, hexec]
    dsimp only
    rw [if_neg hc.ne', hb, hf]
    dsimp only
    rw [hF.1]
  have hsbody : streamBody o params (kn : Int) none =
      (chunkAux kn []
          (fetchLoop (bindColsAux o colCount 1).1 (steps ++ [FetchStep.noData])).1,
        Except.ok (),
        ⟨some o.handle, (bindParamsAux o 1 params).1,
          (fetchLoop (bindColsAux o colCount 1).1 (steps ++ [FetchStep.noData])).2.1⟩,
        (bindParamsAux o 1 params).2.1 ++
          Event.execDirectCall :: (bindColsAux o colCount 1).2.1 ++
          List.replicate
            (fetchLoop (bindColsAux o colCount 1).1 (steps ++ [FetchStep.noData])).2.2.1
            Event.fetchCall) := by
    unfold streamBody
    dsimp only
    rw [hp, hexec]
    dsimp only
    rw [if_neg hc.ne', hb, hf]
    dsimp only
    rw [hS]
  have hstr := streamRun_started o params (kn : Int) none (by simp)
  refine ⟨(fetchLoop (bindColsAux o colCount 1).1 (steps ++ [FetchStep.noData])).1,
    ?_, hF.2.1, ?_, ?_, ?_, ?_, ?_⟩
  · show (executeBody o params).1 = _
    rw [hbody]
  · rw [hstr]
    show (streamBody o params (kn : Int) none).2.1 = _
    rw [hsbody]
  · rw [hstr]
    show (streamBody o params (kn : Int) none).1.flatten = _
    rw [hsbody]
    simpa using chunkAux_flatten kn
      (fetchLoop (bindColsAux o colCount 1).1 (steps ++ [FetchStep.noData])).1 []
  · rw [hstr]
    show (streamBody o params (kn : Int) none).1.length = _
    rw [hsbody]
    rw [chunkAux_length kn hk
      (fetchLoop (bindColsAux o colCount 1).1 (steps ++ [FetchStep.noData])).1.length _ rfl]
    rw [hF.2.1]
  · rw [hstr]
    intro ch hch
    rw [show (StreamRun.mk (streamBody o params (kn : Int) none).1
        (streamBody o params (kn : Int) none).2.1 ⟨none, [], []⟩ _).chunks =
        (streamBody o params (kn : Int) none).1 from rfl] at hch
    rw [hsbody] at hch
    exact chunkAux_dropLast kn hk
      (fetchLoop (bindColsAux o colCount 1).1 (steps ++ [FetchStep.noData])).1.length _ rfl
      ch hch
  · rw [hstr]
    show ∃ lc, ((streamBody o params (kn : Int) none).1).getLast? = some lc ∧ _
    rw [hsbody]
    have hne : (fetchLoop (bindColsAux o colCount 1).1 (steps ++ [FetchStep.noData])).1 ≠ [] := by
      intro hcon
      rw [hcon] at hF
      have := hF.2.1
      simp at this
      omega
    obtain ⟨lc, h1, h2⟩ := chunkAux_getLast kn hk
      (fetchLoop (bindColsAux o colCount 1).1 (steps ++ [FetchStep.noData])).1.length _ rfl hne
    exact ⟨lc, h1, by rw [h2, hF.2.1]⟩

/-- Witness for C2: three rows streamed with `chunkSize = 2` produce two
chunks of sizes 2 and 1 whose concatenation is the `execute` row list. -/
theorem c2_stream_chunking_witness :
    ∃ rows : List Row,
      (executeRun demoOracle []).result = Except.ok (0, rows) ∧
      rows.length = demoSteps.length ∧
      (streamRun demoOracle [] ((2 : Nat) : Int) none).result = Except.ok () ∧
      (streamRun demoOracle [] ((2 : Nat) : Int) none).chunks.flatten = rows ∧
      (streamRun demoOracle [] ((2 : Nat) : Int) none).chunks.length =
        (demoSteps.length + 2 - 1) / 2 ∧
      (∀ ch ∈ (streamRun demoOracle [] ((2 : Nat) : Int) none).chunks.dropLast,
        ch.length = 2) ∧
      (∃ lc, (streamRun demoOracle [] ((2 : Nat) : Int) none).chunks.getLast? = some lc ∧
        lc.length = (if demoSteps.length % 2 = 0 then 2 else demoSteps.length % 2)) :=
  c2_stream_chunking demoOracle [] 2 demoSteps 1 0 (by decide) rfl
    (by
      intro s hs
      fin_cases hs <;> exact ⟨_, _, rfl⟩)
    (by decide) rfl rfl (by decide) rfl


end MsOdbc
